import Mathlib

/-!
# replacerbot: the mutation-and-publish pipeline

A shallow embedding of `cmd/replacerbot/bot/bot.go` and
`cmd/replacer-starter/starter/starter.go`.

* Go strings are modelled by Lean `String` (a sequence of code points).
* Go `int` values are modelled by `Int`; no arithmetic is performed on them.
* Calls that leave the process (file system, git, HTTP, subprocess, clock) are
  answered by a `World` record; a run returns the list of such calls it made,
  the lines it logged and the error it returned (`none` for Go's `nil`).
-/

set_option maxRecDepth 100000

/-- A Go `error` value: the text of its `Error()` method and, for an
`*exec.ExitError`, the content of its `Stderr` field (empty for every other
error). -/
structure GoError where
  msg : String
  stderr : String
deriving DecidableEq, Repr

/-- Severity of a line written through `github.com/no-src/log`. -/
inductive LogLevel where
  | info
  | error
deriving DecidableEq, Repr

namespace fmt

/-- An operand of `fmt.Sprintf`: the source only passes strings and ints. -/
inductive Arg where
  | str (s : String)
  | int (n : Int)
deriving DecidableEq, Repr

/-- The verb `%d` on an `int`: decimal digits, with a leading `-` when negative. -/
def formatInt (n : Int) : String := toString n

/-- Expansion of a format string.  Only the fragment the source uses is
interpreted: `%s` with a string operand and `%d` with an int operand; every
other character is copied.  Operands are inserted as they are and are not
scanned for verbs again. -/
def sprintfAux : List Char → List Arg → List Char
  | [], _ => []
  | '%' :: 's' :: rest, Arg.str s :: args => s.data ++ sprintfAux rest args
  | '%' :: 'd' :: rest, Arg.int n :: args => (formatInt n).data ++ sprintfAux rest args
  | c :: rest, args => c :: sprintfAux rest args

/-- Go's `fmt.Sprintf(format, args...)`. -/
def Sprintf (format : String) (args : List Arg) : String :=
  ⟨sprintfAux format.data args⟩

end fmt

/-- A line handed to the logger: `log.Error(err, format, args...)` or
`log.Info(format, args...)`, kept unrendered. -/
structure LogLine where
  level : LogLevel
  err : Option GoError
  format : String
  args : List fmt.Arg
deriving DecidableEq, Repr

namespace strings

/-- Left-to-right scan of `strings.ReplaceAll` for a non-empty `old`: at a
position where `old` starts, `new` is emitted and the scan resumes after the
match (`skip` counts the characters of the match still to be passed over). -/
def replaceAllAux (old new : List Char) : Nat → List Char → List Char
  | _, [] => []
  | skip + 1, _ :: cs => replaceAllAux old new skip cs
  | 0, c :: cs =>
    if old <+: c :: cs then new ++ replaceAllAux old new (old.length - 1) cs
    else c :: replaceAllAux old new 0 cs

/-- Go's `strings.ReplaceAll(s, old, new)` for a non-empty `old`:
every non-overlapping occurrence of `old` in `s` is replaced by `new`. -/
def ReplaceAll (s old new : String) : String :=
  ⟨replaceAllAux old.data new.data 0 s.data⟩

/-- Go's `strings.TrimSuffix(s, suffix)`. -/
def TrimSuffix (s suffix : String) : String :=
  if suffix.data <:+ s.data then ⟨s.data.take (s.data.length - suffix.data.length)⟩ else s

/-- Go's `strings.Trim(s, cutset)`: leading and trailing characters that
occur in `cutset` are removed. -/
def Trim (s cutset : String) : String :=
  ⟨(s.data.dropWhile (fun c => decide (c ∈ cutset.data))).rdropWhile
    (fun c => decide (c ∈ cutset.data))⟩

/-- The effect of Go's `strings.ToLower` on text whose letters are ASCII:
`A`..`Z` become `a`..`z`, every other character is kept. -/
def ToLowerASCII (s : String) : String := ⟨s.data.map Char.toLower⟩

end strings

namespace time

/-- A clock reading as `Format` sees it: the calendar fields of the instant
in the location of the `Time` value (`time.Now()` yields local time). -/
structure Time where
  year : Int
  month : Nat
  day : Nat
  hour : Nat
  minute : Nat
  second : Nat
deriving DecidableEq, Repr

/-- Calendar ranges of a reading with a four-digit year. -/
def Time.valid (t : Time) : Prop :=
  0 ≤ t.year ∧ t.year ≤ 9999 ∧ 1 ≤ t.month ∧ t.month ≤ 12 ∧ 1 ≤ t.day ∧ t.day ≤ 31 ∧
    t.hour < 24 ∧ t.minute < 60 ∧ t.second < 60

instance (t : Time) : Decidable t.valid := by
  unfold Time.valid; infer_instance

/-- Calendar ranges of the fields below the year. -/
def Time.inCalendar (t : Time) : Prop :=
  1 ≤ t.month ∧ t.month ≤ 12 ∧ 1 ≤ t.day ∧ t.day ≤ 31 ∧
    t.hour < 24 ∧ t.minute < 60 ∧ t.second < 60

instance (t : Time) : Decidable t.inCalendar := by
  unfold Time.inCalendar; infer_instance

/-- The byte `'0' + u` of `appendInt`. -/
def utod (u : Nat) : Char := Char.ofNat (48 + u)

/-- Go's `time.appendInt(b, x, width)`: `x` in decimal, zero-padded on the
left to at least `width` digits, after a `-` when `x` is negative.  The two
fast paths (`width == 2 && u < 1e2`, `width == 4 && u < 1e4`) are those of
the Go source. -/
def appendInt (x : Int) (width : Nat) : List Char :=
  let u := x.natAbs
  (if x < 0 then ['-'] else []) ++
    (if width = 2 ∧ u < 100 then [utod (u / 10), utod (u % 10)]
     else if width = 4 ∧ u < 10000 then
       [utod (u / 1000), utod (u / 100 % 10), utod (u / 10 % 10), utod (u % 10)]
     else List.replicate (width - (Nat.toDigits 10 u).length) '0' ++ Nat.toDigits 10 u)

/-- Go's `t.Format("20060102150405")`: the layout is the chunks `2006`
(year, width 4), `01` (month), `02` (day), `15` (hour), `04` (minute) and
`05` (second), each of width 2. -/
def Time.Format20060102150405 (t : Time) : String :=
  ⟨appendInt t.year 4 ++ appendInt t.month 2 ++ appendInt t.day 2 ++
    appendInt t.hour 2 ++ appendInt t.minute 2 ++ appendInt t.second 2⟩

/-- A `Time` value as `time.Now()` returns it: the Unix second of the instant
and the offset, in seconds east of UTC, that the local zone has at that
instant. -/
structure Instant where
  unix : Int
  offset : Int
deriving DecidableEq, Repr

/-- Go's table `daysBefore`: the days of a non-leap year before each month. -/
def daysBefore : List Nat := [0, 31, 59, 90, 120, 151, 181, 212, 243, 273, 304, 334, 365]

/-- Go's `isLeap(year)`. -/
def isLeap (year : Int) : Bool := year % 4 == 0 && (year % 100 != 0 || year % 400 == 0)

/-- The month and day part of Go's `absDate`: from the day of the year
(counted from 0) to month and day of the month. -/
def monthDay (leap : Bool) (yday : Nat) : Nat × Nat :=
  if leap ∧ yday = 31 + 29 - 1 then (2, 29)
  else
    let day := if leap ∧ yday > 31 + 29 - 1 then yday - 1 else yday
    let month := day / 31
    let stop := daysBefore.getD (month + 1) 0
    if day ≥ stop then (month + 2, day - stop + 1)
    else (month + 1, day - daysBefore.getD month 0 + 1)

/-- The year part of Go's `absDate`: cycles of 400, 100, 4 and 1 years are cut
off the day count in turn, leaving the year and the day of the year.  Days
are counted from 0001-01-01, an origin that differs from Go's absolute zero
year by a whole number of 400-year cycles. -/
def yearDay (days : Int) : Int × Nat :=
  let n400 := days / 146097
  let d := (days % 146097).toNat
  let n := d / 36524
  let n100 := n - n / 4
  let d := d - 36524 * n100
  let n4 := d / 1461
  let d := d - 1461 * n4
  let n := d / 365
  let n1 := n - n / 4
  (400 * n400 + 100 * n100 + 4 * n4 + n1 + 1, d - 365 * n1)

/-- The calendar fields of a local second (Unix second plus zone offset), as
Go's `absDate` and `absClock` compute them; 719162 is the number of days from
0001-01-01 to 1970-01-01. -/
def civil (loc : Int) : Time :=
  let yd := yearDay (loc / 86400 + 719162)
  let md := monthDay (isLeap yd.1) yd.2
  let sec := (loc % 86400).toNat
  ⟨yd.1, md.1, md.2, sec / 3600, sec % 3600 / 60, sec % 60⟩

/-- The clock reading that `Format` sees for an instant: the calendar fields
of its wall-clock second in the local zone. -/
def Instant.wall (i : Instant) : Time := civil (i.unix + i.offset)

end time

namespace exec

/-- How the subprocess started by `exec.Command(name, args...)` ends: it
runs and exits with a status, having written `out` to stdout and stderr, or
it cannot be run at all. -/
inductive Outcome where
  | exited (out : String) (status : Nat)
  | failed (out : String) (err : GoError)
deriving DecidableEq, Repr

/-- The `*exec.ExitError` returned for a non-zero exit by a command whose
`Stderr` is set, as `CombinedOutput` does: its `Error()` text is that of the
process state, `exit status N`, and its `Stderr` field is left empty (only
`cmd.Output` fills it). -/
def ExitError (status : Nat) : GoError := ⟨"exit status " ++ toString status, ""⟩

/-- Go's `cmd.CombinedOutput()`: the bytes written to stdout and stderr,
and a nil error exactly when the process ran and exited with status 0. -/
def CombinedOutput : Outcome → String × Option GoError
  | Outcome.exited out 0 => (out, none)
  | Outcome.exited out (n + 1) => (out, some (ExitError (n + 1)))
  | Outcome.failed out err => (out, some err)

end exec

namespace starter

/-- The collaborators of `starter.Run`. -/
structure World where
  /-- Error of `httputil.NewHttpClient(true, "", false)`. -/
  NewHttpClient : Option GoError
  /-- Error of `client.Download(path, url, false)`. -/
  Download : String → String → Option GoError
  /-- Fate of the subprocess `exec.Command(name, args...)`. -/
  Command : String → List String → exec.Outcome

/-- The calls `starter.Run` makes to its collaborators. -/
inductive Call where
  | NewHttpClient
  | Download (path url : String)
  | CombinedOutput (name : String) (args : List String)
deriving DecidableEq, Repr

/-- What a run of `starter.Run` did and returned. -/
structure Result where
  calls : List Call
  logs : List LogLine
  err : Option GoError
deriving DecidableEq, Repr

/-- The function `Run` of `starter.go` (lines 36-66). -/
def Run (w : World) (root tag replacerConf replacerConfUrl replacerFile replacerUrl : String)
    (revert : Bool) : Result :=
  let args := ["-root=" ++ root, "-tag=" ++ tag, "-conf=" ++ replacerConf,
    "-conf_url=" ++ replacerConfUrl]
  let args := if revert then args ++ ["-revert"] else args
  let exe : List Call → Result := fun calls =>
    match exec.CombinedOutput (w.Command replacerFile args) with
    | (out, some err) =>
      ⟨calls ++ [Call.CombinedOutput replacerFile args],
        [⟨LogLevel.error, some err, "run replacer error", []⟩,
          ⟨LogLevel.info, none, "replacer running result:", []⟩,
          ⟨LogLevel.info, none, out, []⟩],
        some err⟩
    | (out, none) =>
      ⟨calls ++ [Call.CombinedOutput replacerFile args],
        [⟨LogLevel.info, none, "run replacer success", []⟩,
          ⟨LogLevel.info, none, "replacer running result:", []⟩,
          ⟨LogLevel.info, none, out, []⟩],
        none⟩
  if replacerUrl.length > 0 then
    match w.NewHttpClient with
    | some err =>
      ⟨[Call.NewHttpClient], [⟨LogLevel.error, some err, "init http client error", []⟩], some err⟩
    | none =>
      match w.Download replacerFile replacerUrl with
      | some err =>
        ⟨[Call.NewHttpClient, Call.Download replacerFile replacerUrl],
          [⟨LogLevel.error, some err, "download replacer error, url => %s",
            [fmt.Arg.str replacerUrl]⟩],
          some err⟩
      | none => exe [Call.NewHttpClient, Call.Download replacerFile replacerUrl]
  else exe []

end starter

namespace bot

/-- The record type `project` of `bot.go`, one element of the JSON array
returned by the group-projects API. -/
structure project where
  Id : Int
  SSHUrlToRepo : String
  HttpUrlToRepo : String
  WebUrl : String
  PathWithNamespace : String
deriving DecidableEq, Repr

/-- The fields of the `*url.URL` returned by `url.Parse` that `Run` reads. -/
structure URL where
  Scheme : String
  Host : String
  Path : String
deriving DecidableEq, Repr

/-- The collaborators of `bot.Run`. -/
structure World where
  /-- Reading of `time.Now()` at the start of `Run` (line 66): the calendar
  fields `Instant.wall` of the instant in the local zone. -/
  Now : time.Time
  /-- Result of `url.Parse(rawURL)`. -/
  Parse : String → Except GoError URL
  /-- Error of `os.Stat(path)`. -/
  Stat : String → Option GoError
  /-- The test `os.IsNotExist(err)` on a non-nil error. -/
  IsNotExist : GoError → Bool
  /-- Error of `os.MkdirAll(path, os.ModePerm)`. -/
  MkdirAll : String → Option GoError
  /-- Result of `os.MkdirTemp(dir, pattern)`. -/
  MkdirTemp : String → String → Except GoError String
  /-- Result of `filepath.Abs(path)`. -/
  Abs : String → Except GoError String
  /-- Error of `git.PlainClone(path, false, opts)` for the given path, URL and
  reference name. -/
  PlainClone : String → String → String → Option GoError
  /-- Error of `repo.Worktree()`. -/
  Worktree : Option GoError
  /-- Error of `tree.Checkout` creating the given branch. -/
  Checkout : String → Option GoError
  /-- Collaborators of the nested `starter.Run`. -/
  starter : starter.World
  /-- Result of `tree.Commit(message, opts)`: the hash, rendered. -/
  Commit : String → Except GoError String
  /-- Error of `repo.Push(opts)`. -/
  Push : Option GoError
  /-- Error of `httputil.NewHttpClient(true, "", false)` in `getProjectId`. -/
  NewHttpClient : Option GoError
  /-- Result of `client.HttpGetWithCookie(url, header)` for the given URL and
  `PRIVATE-TOKEN`; the value stands for the response. -/
  HttpGetWithCookie : String → String → Except GoError String
  /-- Result of `io.ReadAll(resp.Body)`. -/
  ReadAll : String → Except GoError String
  /-- Result of `jsonutil.Unmarshal(data, &projects)`. -/
  Unmarshal : String → Except GoError (List project)

/-- The function `openCreateMR` of `bot.go` (lines 187-194): the returned URL.
The call `browser.OpenBrowser(url)` is recorded by the caller. -/
def openCreateMR (schema host fullName sourceBranch targetBranch : String) (projectId : Int) :
    String :=
  let url := "%s://%s/%s/merge_requests/new?utf8=✓&merge_request[source_project_id]=%d&merge_request[source_branch]=%s&merge_request[target_project_id]=%d&merge_request[target_branch]=%s"
  let url := fmt.Sprintf url [fmt.Arg.str schema, fmt.Arg.str host, fmt.Arg.str fullName,
    fmt.Arg.int projectId, fmt.Arg.str sourceBranch, fmt.Arg.int projectId,
    fmt.Arg.str targetBranch]
  let url := strings.ReplaceAll url "[" "%5B"
  let url := strings.ReplaceAll url "]" "%5D"
  url

/-- The loop of `getProjectId` (lines 216-222): `id` starts at 0 and takes the
`Id` of the first record whose lowered path equals the lowered query.
`ToLower` is Go's `strings.ToLower`. -/
def getProjectId_loop (ToLower : String → String) (projectFullName : String) :
    List project → Int
  | [] => 0
  | p :: ps =>
    if ToLower p.PathWithNamespace = ToLower projectFullName then p.Id
    else getProjectId_loop ToLower projectFullName ps

/-- The matching step of `getProjectId` (lines 216-226) on the parsed list:
the pair `(id, err)` it returns. -/
def getProjectId_match (ToLower : String → String) (projects : List project)
    (projectFullName : String) : Int × Option GoError :=
  let id := getProjectId_loop ToLower projectFullName projects
  if id ≤ 0 then (id, some ⟨"get repository project id error", ""⟩) else (id, none)

/-- The function `getProjectId` of `bot.go` (lines 196-227). -/
def getProjectId (w : World) (ToLower : String → String) (schema host : String) (groupId : Int)
    (projectFullName token : String) : Int × Option GoError :=
  match w.NewHttpClient with
  | some err => (0, some err)
  | none =>
    let apiUrl := fmt.Sprintf "%s://%s/api/v4/groups/%d/projects"
      [fmt.Arg.str schema, fmt.Arg.str host, fmt.Arg.int groupId]
    match w.HttpGetWithCookie apiUrl token with
    | Except.error err => (0, some err)
    | Except.ok resp =>
      match w.ReadAll resp with
      | Except.error err => (0, some err)
      | Except.ok data =>
        match w.Unmarshal data with
        | Except.error err => (0, some err)
        | Except.ok projects => getProjectId_match ToLower projects projectFullName

/-- The working branch name of `Run` (lines 66-69). -/
def newBranch (originBranch : String) (now : time.Time) (revert : Bool) : String :=
  let newBranch := originBranch ++ "-dev-replacer-" ++ now.Format20060102150405
  if revert then "revert-" ++ newBranch else newBranch

/-- The commit message of `Run` (lines 144-148). -/
def commitMessage (tag commitMessage : String) (revert : Bool) : String :=
  if revert then
    fmt.Sprintf "chore(revert replace %s): %s" [fmt.Arg.str tag, fmt.Arg.str commitMessage]
  else
    fmt.Sprintf "chore(replace %s): %s" [fmt.Arg.str tag, fmt.Arg.str commitMessage]

/-- The calls `bot.Run` makes, in the order of the source. -/
inductive Call where
  | Parse (rawURL : String)
  | Stat (path : String)
  | MkdirAll (path : String)
  | MkdirTemp (dir pattern : String)
  | Abs (path : String)
  | PlainClone (path url referenceName username password : String)
  | Worktree
  | Checkout (branch : String)
  | starterRun (root tag replacerConf replacerConfUrl replacerFile replacerUrl : String)
      (revert : Bool)
  | Commit (message authorName authorEmail : String)
  | Push (username password : String)
  | getProjectId (schema host : String) (groupId : Int) (projectFullName token : String)
  | openCreateMR (schema host fullName sourceBranch targetBranch : String) (projectId : Int)
deriving DecidableEq, Repr

/-- What a run of `bot.Run` did and returned. -/
structure Result where
  calls : List Call
  logs : List LogLine
  err : Option GoError
deriving DecidableEq, Repr

/-- The function `Run` of `bot.go` (lines 65-185).  `ToLower` is Go's
`strings.ToLower`, used by `getProjectId`.  The nested `starter.Run` is one
call of the trace; its log lines are part of the log. -/
def Run (w : World) (ToLower : String → String)
    (repoUrl username password originBranch tag savePath commitMessage replacerFile replacerUrl
      replacerConf replacerConfUrl : String)
    (gitlabGroupId : Int) (gitlabToken : String) (revert : Bool) : Result :=
  let newBranch := bot.newBranch originBranch w.Now revert
  match w.Parse repoUrl with
  | Except.error err =>
    ⟨[Call.Parse repoUrl],
      [⟨LogLevel.error, some err, "parse git repo url error: %s", [fmt.Arg.str repoUrl]⟩],
      some err⟩
  | Except.ok repoUrlObj =>
    let repoFullName := strings.Trim (strings.TrimSuffix repoUrlObj.Path ".git") "/"
    let repoSchema := repoUrlObj.Scheme
    let repoHost := repoUrlObj.Host
    let rest : List Call → Result := fun c0 =>
      let pattern := strings.ReplaceAll repoFullName "/" "-" ++ "-"
      let c1 := c0 ++ [Call.MkdirTemp savePath pattern]
      match w.MkdirTemp savePath pattern with
      | Except.error err =>
        ⟨c1, [⟨LogLevel.error, some err, "init repo dir error", []⟩], some err⟩
      | Except.ok repoRoot =>
        let c2 := c1 ++ [Call.Abs repoRoot]
        match w.Abs repoRoot with
        | Except.error err =>
          ⟨c2, [⟨LogLevel.error, some err, "get repo abs path error => %s", [fmt.Arg.str ""]⟩],
            some err⟩
        | Except.ok repoRoot =>
          let c3 := c2 ++ [Call.PlainClone repoRoot repoUrl originBranch username password]
          match w.PlainClone repoRoot repoUrl originBranch with
          | some err =>
            ⟨c3, [⟨LogLevel.error, some err, "clone repo error => %s", [fmt.Arg.str repoUrl]⟩],
              some err⟩
          | none =>
            let c4 := c3 ++ [Call.Worktree]
            match w.Worktree with
            | some err =>
              ⟨c4, [⟨LogLevel.error, some err, "get repo worktree error => %s",
                [fmt.Arg.str repoUrl]⟩], some err⟩
            | none =>
              let c5 := c4 ++ [Call.Checkout newBranch]
              match w.Checkout newBranch with
              | some err =>
                ⟨c5, [⟨LogLevel.error, some err, "checkout error %s => %s",
                  [fmt.Arg.str repoUrl, fmt.Arg.str newBranch]⟩], some err⟩
              | none =>
                let c6 := c5 ++ [Call.starterRun repoRoot tag replacerConf replacerConfUrl
                  replacerFile replacerUrl revert]
                let s := starter.Run w.starter repoRoot tag replacerConf replacerConfUrl
                  replacerFile replacerUrl revert
                match s.err with
                | some err =>
                  ⟨c6, s.logs ++ [⟨LogLevel.error, some err, "run starter error", []⟩], some err⟩
                | none =>
                  let commitMessage := bot.commitMessage tag commitMessage revert
                  let c7 := c6 ++ [Call.Commit commitMessage "replacerbot" username]
                  match w.Commit commitMessage with
                  | Except.error err =>
                    ⟨c7, s.logs ++ [⟨LogLevel.error, some err, "git commit error %s => %s",
                      [fmt.Arg.str repoUrl, fmt.Arg.str newBranch]⟩], some err⟩
                  | Except.ok hash =>
                    let l7 := s.logs ++
                      [⟨LogLevel.info, none, "git commit success: %s", [fmt.Arg.str hash]⟩]
                    let c8 := c7 ++ [Call.Push username password]
                    match w.Push with
                    | some err =>
                      ⟨c8, l7 ++ [⟨LogLevel.error, some err, "git push error %s => %s",
                        [fmt.Arg.str repoUrl, fmt.Arg.str newBranch]⟩], some err⟩
                    | none =>
                      let l8 := l7 ++
                        [⟨LogLevel.info, none, "remote repository url: %s", [fmt.Arg.str repoUrl]⟩,
                          ⟨LogLevel.info, none, "local repository path: %s",
                            [fmt.Arg.str repoRoot]⟩,
                          ⟨LogLevel.info, none, "new branch: %s", [fmt.Arg.str newBranch]⟩]
                      let c9 := c8 ++ [Call.getProjectId repoSchema repoHost gitlabGroupId
                        repoFullName gitlabToken]
                      match getProjectId w ToLower repoSchema repoHost gitlabGroupId repoFullName
                        gitlabToken with
                      | (_, some err) =>
                        ⟨c9, l8 ++ [⟨LogLevel.error, some err,
                          "get repository project id error %s => %s",
                          [fmt.Arg.str repoFullName]⟩], some err⟩
                      | (projectId, none) =>
                        let mrUrl := openCreateMR repoSchema repoHost repoFullName newBranch
                          originBranch projectId
                        ⟨c9 ++ [Call.openCreateMR repoSchema repoHost repoFullName newBranch
                            originBranch projectId],
                          l8 ++ [⟨LogLevel.info, none, "current repository project id: %d",
                              [fmt.Arg.int projectId]⟩,
                            ⟨LogLevel.info, none,
                              "if the browser does not open automatically, manually visit the following link to create a merge request: \n%s",
                              [fmt.Arg.str mrUrl]⟩],
                          none⟩
    match w.Stat savePath with
    | none => rest [Call.Parse repoUrl, Call.Stat savePath]
    | some err =>
      if w.IsNotExist err then
        match w.MkdirAll savePath with
        | some err =>
          ⟨[Call.Parse repoUrl, Call.Stat savePath, Call.MkdirAll savePath],
            [⟨LogLevel.error, some err, "create dir error=> %s", [fmt.Arg.str savePath]⟩],
            some err⟩
        | none => rest [Call.Parse repoUrl, Call.Stat savePath, Call.MkdirAll savePath]
      else
        ⟨[Call.Parse repoUrl, Call.Stat savePath],
          [⟨LogLevel.error, some err, "init dir error=> %s", [fmt.Arg.str savePath]⟩],
          some err⟩

/-- The error, if any, with which the world answers a call of the trace.
A `Stat` that reports a missing directory is not a failure of the run: `Run`
goes on to `MkdirAll`.  Building the link cannot fail. -/
def World.outcome (w : World) (ToLower : String → String) : Call → Option GoError
  | Call.Parse rawURL =>
    match w.Parse rawURL with
    | Except.error err => some err
    | Except.ok _ => none
  | Call.Stat path =>
    match w.Stat path with
    | some err => if w.IsNotExist err then none else some err
    | none => none
  | Call.MkdirAll path => w.MkdirAll path
  | Call.MkdirTemp dir pattern =>
    match w.MkdirTemp dir pattern with
    | Except.error err => some err
    | Except.ok _ => none
  | Call.Abs path =>
    match w.Abs path with
    | Except.error err => some err
    | Except.ok _ => none
  | Call.PlainClone path url referenceName _ _ => w.PlainClone path url referenceName
  | Call.Worktree => w.Worktree
  | Call.Checkout branch => w.Checkout branch
  | Call.starterRun root tag replacerConf replacerConfUrl replacerFile replacerUrl revert =>
    (starter.Run w.starter root tag replacerConf replacerConfUrl replacerFile replacerUrl
      revert).err
  | Call.Commit message _ _ =>
    match w.Commit message with
    | Except.error err => some err
    | Except.ok _ => none
  | Call.Push _ _ => w.Push
  | Call.getProjectId schema host groupId projectFullName token =>
    (getProjectId w ToLower schema host groupId projectFullName token).2
  | Call.openCreateMR _ _ _ _ _ _ => none

end bot

/-! ## Notions used to state the properties -/

namespace time

/-- The number a digit character stands for. -/
def digitValue (c : Char) : Nat := c.toNat - 48

/-- The number a string of decimal digits stands for. -/
def decimalValue (l : List Char) : Nat := l.foldl (fun acc c => acc * 10 + digitValue c) 0

/-- The day of the year (counted from 0) of a month and day. -/
def ydayOf (leap : Bool) (md : Nat × Nat) : Nat :=
  daysBefore.getD (md.1 - 1) 0 + md.2 - 1 + (if leap ∧ md.1 > 2 then 1 else 0)

end time

namespace bot

/-- The URL format of the specification with every string inserted as it
is and the brackets of the four parameter names percent-encoded. -/
def specMRUrl (schema host fullPath sourceBranch targetBranch : String) (id : Int) : String :=
  schema ++ "://" ++ host ++ "/" ++ fullPath ++
    "/merge_requests/new?utf8=✓&merge_request%5Bsource_project_id%5D=" ++ fmt.formatInt id ++
    "&merge_request%5Bsource_branch%5D=" ++ sourceBranch ++
    "&merge_request%5Btarget_project_id%5D=" ++ fmt.formatInt id ++
    "&merge_request%5Btarget_branch%5D=" ++ targetBranch

/-- Character-wise percent-encoding of square brackets: `[` becomes `%5B`,
`]` becomes `%5D`, every other character is kept. -/
def escapeBrackets (s : String) : String :=
  ⟨s.data.flatMap (fun c => if c = '[' then ['%', '5', 'B'] else if c = ']' then ['%', '5', 'D']
    else [c])⟩

/-- Number of positions of `s` at which `pat` starts. -/
def occurrencesAux (pat : List Char) : List Char → Nat
  | [] => 0
  | c :: cs => (if pat <+: c :: cs then 1 else 0) + occurrencesAux pat cs

/-- Number of occurrences of the non-empty string `pat` in `s`. -/
def occurrences (pat s : String) : Nat := occurrencesAux pat.data s.data

/-- Instances of the template `chore(replace <tag>): <message>`. -/
def isReplaceMessage (s : String) : Prop :=
  ∃ tag message : String, s = "chore(replace " ++ tag ++ "): " ++ message

/-- Instances of the template `chore(revert replace <tag>): <message>`. -/
def isRevertMessage (s : String) : Prop :=
  ∃ tag message : String, s = "chore(revert replace " ++ tag ++ "): " ++ message

/-- Position of a call in the order of the pipeline: parse, stat, mkdirAll,
mkdirTemp, abs, clone, worktree, checkout, transform, commit, push, project
resolution, link. -/
def Call.stage : Call → Nat
  | Call.Parse _ => 0
  | Call.Stat _ => 1
  | Call.MkdirAll _ => 2
  | Call.MkdirTemp _ _ => 3
  | Call.Abs _ => 4
  | Call.PlainClone _ _ _ _ _ => 5
  | Call.Worktree => 6
  | Call.Checkout _ => 7
  | Call.starterRun _ _ _ _ _ _ _ => 8
  | Call.Commit _ _ _ => 9
  | Call.Push _ _ => 10
  | Call.getProjectId _ _ _ _ _ => 11
  | Call.openCreateMR _ _ _ _ _ _ => 12

/-- A trace that runs from call to call while the calls succeed: every call
but the last is answered without error, the stages increase, from the
transform on each call follows the call of the stage just before it, and the
last call is answered by `e`. -/
def chain (out : Call → Option GoError) : List Call → Option GoError → Prop
  | [], _ => False
  | [c], e => out c = e
  | c :: d :: rest, e =>
    out c = none ∧ c.stage < d.stage ∧ (8 ≤ d.stage → d.stage = c.stage + 1) ∧
      chain out (d :: rest) e

/-- A world for examples: the repository `group/app` on
`gitlab.example.com`, every collaborator succeeds, the transform tool ends
as `tool` says, and the group holds the projects `Group/App` (id 7) and
`group/other` (id 8). -/
def sampleWorld (tool : exec.Outcome) : World where
  Now := ⟨2024, 1, 2, 3, 4, 5⟩
  Parse := fun _ => Except.ok ⟨"https", "gitlab.example.com", "/group/app.git"⟩
  Stat := fun _ => none
  IsNotExist := fun _ => false
  MkdirAll := fun _ => none
  MkdirTemp := fun dir pattern => Except.ok (dir ++ "/" ++ pattern ++ "1")
  Abs := fun path => Except.ok ("/work/" ++ path)
  PlainClone := fun _ _ _ => none
  Worktree := none
  Checkout := fun _ => none
  starter := ⟨none, fun _ _ => none, fun _ _ => tool⟩
  Commit := fun _ => Except.ok "0a1b2c3"
  Push := none
  NewHttpClient := none
  HttpGetWithCookie := fun _ _ => Except.ok "response"
  ReadAll := fun _ => Except.ok "body"
  Unmarshal := fun _ => Except.ok [⟨7, "", "", "", "Group/App"⟩, ⟨8, "", "", "", "group/other"⟩]

/-- The string contains none of the characters `[`, `]`, `%`. -/
def plain (s : String) : Prop := '[' ∉ s.data ∧ ']' ∉ s.data ∧ '%' ∉ s.data

instance (s : String) : Decidable (plain s) := by
  unfold plain; infer_instance

end bot

/-! ## Auxiliary facts -/

namespace strings

theorem replaceAllAux_single (a : Char) (new l : List Char) :
    replaceAllAux [a] new 0 l = l.flatMap (fun c => if c = a then new else [c]) := by
  induction l with
  | nil => simp [replaceAllAux]
  | cons c cs ih =>
    by_cases h : c = a
    · subst h
      simp [replaceAllAux, ih]
    · have h' : ¬ a = c := fun e => h e.symm
      simp [replaceAllAux, ih, h, h']

theorem ReplaceAll_single_data (s : String) (a : Char) (new : String) :
    (ReplaceAll s ⟨[a]⟩ new).data = s.data.flatMap (fun c => if c = a then new.data else [c]) := by
  simp [ReplaceAll, replaceAllAux_single]

end strings

namespace fmt

theorem digitChar_isDigit : ∀ d : Nat, d < 10 → (Nat.digitChar d).isDigit = true := by
  decide

theorem toDigitsCore_isDigit (fuel : Nat) : ∀ (n : Nat) (ds : List Char),
    (∀ c ∈ ds, c.isDigit = true) → ∀ c ∈ Nat.toDigitsCore 10 fuel n ds, c.isDigit = true := by
  induction fuel with
  | zero => intro n ds h; simpa [Nat.toDigitsCore] using h
  | succ f ih =>
    intro n ds h
    have hd : (Nat.digitChar (n % 10)).isDigit = true :=
      digitChar_isDigit _ (Nat.mod_lt _ (by decide))
    have h' : ∀ c ∈ Nat.digitChar (n % 10) :: ds, c.isDigit = true := by
      intro c hc
      rcases List.mem_cons.mp hc with rfl | hc
      · exact hd
      · exact h c hc
    unfold Nat.toDigitsCore
    by_cases hz : n / 10 = 0
    · simpa [hz] using h'
    · simpa [hz] using ih (n / 10) _ h'

theorem toDigits_isDigit (n : Nat) : ∀ c ∈ Nat.toDigits 10 n, c.isDigit = true :=
  toDigitsCore_isDigit _ _ _ (by simp)

/-- Every character of a `%d` rendering is a decimal digit or the sign. -/
theorem formatInt_chars (n : Int) : ∀ c ∈ (formatInt n).data, c = '-' ∨ c.isDigit = true := by
  intro c hc
  cases n with
  | ofNat m =>
    right
    exact toDigits_isDigit m c hc
  | negSucc m =>
    have hc' : c ∈ '-' :: Nat.toDigits 10 (m + 1) := hc
    rcases List.mem_cons.mp hc' with rfl | h
    · exact Or.inl rfl
    · exact Or.inr (toDigits_isDigit _ c h)

theorem formatInt_plain (n : Int) :
    '[' ∉ (formatInt n).data ∧ ']' ∉ (formatInt n).data ∧ '%' ∉ (formatInt n).data := by
  refine ⟨fun h => ?_, fun h => ?_, fun h => ?_⟩ <;>
    rcases formatInt_chars n _ h with h | h <;> revert h <;> decide

end fmt

namespace bot

theorem escapeBrackets_append (a b : String) :
    escapeBrackets (a ++ b) = escapeBrackets a ++ escapeBrackets b := by
  apply String.ext
  simp [escapeBrackets]

theorem escapeBrackets_of_not_mem (s : String) (h1 : '[' ∉ s.data) (h2 : ']' ∉ s.data) :
    escapeBrackets s = s := by
  apply String.ext
  show s.data.flatMap _ = s.data
  generalize s.data = l at h1 h2
  induction l with
  | nil => rfl
  | cons c cs ih =>
    have hc1 : ¬ c = '[' := fun e => h1 (e ▸ List.mem_cons_self _ _)
    have hc2 : ¬ c = ']' := fun e => h2 (e ▸ List.mem_cons_self _ _)
    have ih' := ih (fun h => h1 (List.mem_cons_of_mem _ h)) (fun h => h2 (List.mem_cons_of_mem _ h))
    simp [hc1, hc2, ih']

/-- The two `ReplaceAll` passes of `openCreateMR` amount to the
character-wise encoding of brackets. -/
theorem ReplaceAll_brackets (u : String) :
    strings.ReplaceAll (strings.ReplaceAll u "[" "%5B") "]" "%5D" = escapeBrackets u := by
  apply String.ext
  have e1 := strings.ReplaceAll_single_data u '[' "%5B"
  have e2 := strings.ReplaceAll_single_data (strings.ReplaceAll u ⟨['[']⟩ "%5B") ']' "%5D"
  show (strings.ReplaceAll (strings.ReplaceAll u ⟨['[']⟩ "%5B") ⟨[']']⟩ "%5D").data = _
  rw [e2, e1, List.flatMap_assoc]
  show _ = u.data.flatMap _
  congr 1
  funext c
  by_cases h1 : c = '['
  · subst h1; rfl
  · by_cases h2 : c = ']'
    · subst h2; rfl
    · simp [h1, h2]

theorem openCreateMR_format (schema host fullName sourceBranch targetBranch : String)
    (projectId : Int) :
    fmt.Sprintf "%s://%s/%s/merge_requests/new?utf8=✓&merge_request[source_project_id]=%d&merge_request[source_branch]=%s&merge_request[target_project_id]=%d&merge_request[target_branch]=%s"
      [fmt.Arg.str schema, fmt.Arg.str host, fmt.Arg.str fullName, fmt.Arg.int projectId,
        fmt.Arg.str sourceBranch, fmt.Arg.int projectId, fmt.Arg.str targetBranch] =
    schema ++ ("://" ++ (host ++ ("/" ++ (fullName ++
      ("/merge_requests/new?utf8=✓&merge_request[source_project_id]=" ++
      (fmt.formatInt projectId ++ ("&merge_request[source_branch]=" ++ (sourceBranch ++
      ("&merge_request[target_project_id]=" ++ (fmt.formatInt projectId ++
      ("&merge_request[target_branch]=" ++ (targetBranch ++ "")))))))))))) := by
  rfl

theorem escapeBrackets_formatInt (n : Int) : escapeBrackets (fmt.formatInt n) = fmt.formatInt n :=
  escapeBrackets_of_not_mem _ (fmt.formatInt_plain n).1 (fmt.formatInt_plain n).2.1

/-- The URL of `openCreateMR` is the specification's format applied to the
bracket-encoded inputs. -/
theorem openCreateMR_eq (schema host fullName sourceBranch targetBranch : String)
    (projectId : Int) :
    openCreateMR schema host fullName sourceBranch targetBranch projectId =
      specMRUrl (escapeBrackets schema) (escapeBrackets host) (escapeBrackets fullName)
        (escapeBrackets sourceBranch) (escapeBrackets targetBranch) projectId := by
  have l1 : escapeBrackets "://" = "://" := by decide
  have l2 : escapeBrackets "/" = "/" := by decide
  have l3 : escapeBrackets "/merge_requests/new?utf8=✓&merge_request[source_project_id]=" =
      "/merge_requests/new?utf8=✓&merge_request%5Bsource_project_id%5D=" := by decide
  have l4 : escapeBrackets "&merge_request[source_branch]=" =
      "&merge_request%5Bsource_branch%5D=" := by decide
  have l5 : escapeBrackets "&merge_request[target_project_id]=" =
      "&merge_request%5Btarget_project_id%5D=" := by decide
  have l6 : escapeBrackets "&merge_request[target_branch]=" =
      "&merge_request%5Btarget_branch%5D=" := by decide
  have l7 : escapeBrackets "" = "" := by decide
  unfold openCreateMR
  simp only []
  rw [ReplaceAll_brackets, openCreateMR_format]
  simp only [escapeBrackets_append, l1, l2, l3, l4, l5, l6, l7, escapeBrackets_formatInt,
    specMRUrl, String.append_assoc, String.append_empty]

theorem occurrencesAux_append_ge (pat a b : List Char) :
    occurrencesAux pat a + occurrencesAux pat b ≤ occurrencesAux pat (a ++ b) := by
  induction a with
  | nil => simp [occurrencesAux]
  | cons c cs ih =>
    have hmono : (if pat <+: c :: cs then 1 else 0) ≤ (if pat <+: c :: (cs ++ b) then 1 else 0) := by
      by_cases h : pat <+: c :: cs
      · have h' : pat <+: c :: (cs ++ b) := h.trans (List.prefix_append (c :: cs) b)
        simp [h, h']
      · simp only [h, if_false]; exact Nat.zero_le _
    show (if pat <+: c :: cs then 1 else 0) + occurrencesAux pat cs + occurrencesAux pat b ≤
      (if pat <+: c :: (cs ++ b) then 1 else 0) + occurrencesAux pat (cs ++ b)
    omega

theorem occurrencesAux_of_not_mem (p : Char) (ps x : List Char) (h : p ∉ x) :
    occurrencesAux (p :: ps) x = 0 := by
  induction x with
  | nil => rfl
  | cons c cs ih =>
    have hc : ¬ p = c := fun e => h (e ▸ List.mem_cons_self _ _)
    simp [occurrencesAux, hc, ih (fun h' => h (List.mem_cons_of_mem _ h'))]

/-- Occurrences add up over a concatenation when the first character of the
pattern is not among the last characters of the left part, so that no match
straddles the boundary. -/
theorem occurrencesAux_append (p : Char) (ps a b : List Char)
    (h : p ∉ a.drop (a.length - ps.length)) :
    occurrencesAux (p :: ps) (a ++ b) = occurrencesAux (p :: ps) a + occurrencesAux (p :: ps) b := by
  induction a with
  | nil => simp [occurrencesAux]
  | cons c cs ih =>
    have hcs : p ∉ cs.drop (cs.length - ps.length) := by
      intro hm
      apply h
      by_cases hk : ps.length ≤ cs.length
      · have e : (c :: cs).length - ps.length = (cs.length - ps.length) + 1 := by
          simp only [List.length_cons]; omega
        rw [e, List.drop_succ_cons]; exact hm
      · have e : (c :: cs).length - ps.length = 0 := by
          simp only [List.length_cons]; omega
        rw [e, List.drop_zero]
        exact List.mem_cons_of_mem _ (List.mem_of_mem_drop hm)
    have hind : (pat : List Char) → pat = p :: ps →
        (if pat <+: c :: (cs ++ b) then 1 else 0) = (if pat <+: c :: cs then 1 else 0) := by
      intro pat hpat
      by_cases hk : ps.length ≤ cs.length
      · have hiff : pat <+: c :: (cs ++ b) ↔ pat <+: c :: cs := by
          constructor
          · intro hp
            refine List.prefix_of_prefix_length_le hp (List.prefix_append (c :: cs) b) ?_
            rw [hpat]; simp only [List.length_cons]; omega
          · intro hp
            exact hp.trans (List.prefix_append (c :: cs) b)
        simp only [hiff]
      · have e : (c :: cs).length - ps.length = 0 := by
          simp only [List.length_cons]; omega
        rw [e, List.drop_zero] at h
        have hc : ¬ p = c := fun e => h (e ▸ List.mem_cons_self _ _)
        rw [hpat]
        simp [hc]
    have hi := hind (p :: ps) rfl
    have ih' := ih hcs
    show (if p :: ps <+: c :: (cs ++ b) then 1 else 0) + occurrencesAux (p :: ps) (cs ++ b) =
      (if p :: ps <+: c :: cs then 1 else 0) + occurrencesAux (p :: ps) cs +
        occurrencesAux (p :: ps) b
    omega

/-- The characters of the URL of `openCreateMR`, segment by segment. -/
theorem openCreateMR_data (schema host fullName sourceBranch targetBranch : String)
    (projectId : Int) :
    (openCreateMR schema host fullName sourceBranch targetBranch projectId).data =
      (escapeBrackets schema).data ++ ("://".data ++ ((escapeBrackets host).data ++ ("/".data ++
      ((escapeBrackets fullName).data ++
      ("/merge_requests/new?utf8=✓&merge_request%5Bsource_project_id%5D=".data ++
      ((fmt.formatInt projectId).data ++ ("&merge_request%5Bsource_branch%5D=".data ++
      ((escapeBrackets sourceBranch).data ++ ("&merge_request%5Btarget_project_id%5D=".data ++
      ((fmt.formatInt projectId).data ++ ("&merge_request%5Btarget_branch%5D=".data ++
      (escapeBrackets targetBranch).data))))))))))) := by
  rw [openCreateMR_eq]
  simp only [specMRUrl, String.data_append, List.append_assoc]

theorem occurrencesAux_flatten_ge (pat : List Char) (segs : List (List Char)) :
    (segs.map (occurrencesAux pat)).sum ≤ occurrencesAux pat segs.flatten := by
  induction segs with
  | nil => simp [occurrencesAux]
  | cons a as ih =>
    have := occurrencesAux_append_ge pat a as.flatten
    simp only [List.map_cons, List.sum_cons, List.flatten_cons]
    omega

theorem occurrencesAux_flatten (p : Char) (ps : List Char) (segs : List (List Char))
    (h : ∀ a ∈ segs, p ∉ a.drop (a.length - ps.length)) :
    occurrencesAux (p :: ps) segs.flatten = (segs.map (occurrencesAux (p :: ps))).sum := by
  induction segs with
  | nil => simp [occurrencesAux]
  | cons a as ih =>
    have h1 := occurrencesAux_append p ps a as.flatten (h a (List.mem_cons_self _ _))
    have h2 := ih (fun x hx => h x (List.mem_cons_of_mem _ hx))
    simp only [List.map_cons, List.sum_cons, List.flatten_cons]
    omega

/-- The segments of the URL of `openCreateMR`. -/
theorem openCreateMR_segments (schema host fullName sourceBranch targetBranch : String)
    (projectId : Int) :
    (openCreateMR schema host fullName sourceBranch targetBranch projectId).data =
      List.flatten [(escapeBrackets schema).data, "://".data, (escapeBrackets host).data, "/".data,
        (escapeBrackets fullName).data,
        "/merge_requests/new?utf8=✓&merge_request%5Bsource_project_id%5D=".data,
        (fmt.formatInt projectId).data, "&merge_request%5Bsource_branch%5D=".data,
        (escapeBrackets sourceBranch).data, "&merge_request%5Btarget_project_id%5D=".data,
        (fmt.formatInt projectId).data, "&merge_request%5Btarget_branch%5D=".data,
        (escapeBrackets targetBranch).data] := by
  rw [openCreateMR_data]
  simp only [List.flatten, List.append_nil]

theorem occurrences_openCreateMR_ge (p : Char) (ps : List Char)
    (schema host fullName sourceBranch targetBranch : String) (projectId : Int) :
    occurrencesAux (p :: ps)
        "/merge_requests/new?utf8=✓&merge_request%5Bsource_project_id%5D=".data +
      occurrencesAux (p :: ps) "&merge_request%5Bsource_branch%5D=".data +
      occurrencesAux (p :: ps) "&merge_request%5Btarget_project_id%5D=".data +
      occurrencesAux (p :: ps) "&merge_request%5Btarget_branch%5D=".data ≤
    occurrencesAux (p :: ps)
      (openCreateMR schema host fullName sourceBranch targetBranch projectId).data := by
  rw [openCreateMR_segments]
  refine Nat.le_trans ?_ (occurrencesAux_flatten_ge _ _)
  simp only [List.map_cons, List.map_nil, List.sum_cons, List.sum_nil]
  omega

theorem occurrences_openCreateMR_plain (p : Char) (ps : List Char)
    (hp : p = '%')
    (schema host fullName sourceBranch targetBranch : String) (projectId : Int)
    (h1 : plain schema) (h2 : plain host) (h3 : plain fullName) (h4 : plain sourceBranch)
    (h5 : plain targetBranch)
    (l1 : p ∉ "://".data.drop ("://".data.length - ps.length))
    (l2 : p ∉ "/".data.drop ("/".data.length - ps.length))
    (l3 : p ∉ "/merge_requests/new?utf8=✓&merge_request%5Bsource_project_id%5D=".data.drop
      ("/merge_requests/new?utf8=✓&merge_request%5Bsource_project_id%5D=".data.length - ps.length))
    (l4 : p ∉ "&merge_request%5Bsource_branch%5D=".data.drop
      ("&merge_request%5Bsource_branch%5D=".data.length - ps.length))
    (l5 : p ∉ "&merge_request%5Btarget_project_id%5D=".data.drop
      ("&merge_request%5Btarget_project_id%5D=".data.length - ps.length))
    (l6 : p ∉ "&merge_request%5Btarget_branch%5D=".data.drop
      ("&merge_request%5Btarget_branch%5D=".data.length - ps.length)) :
    occurrencesAux (p :: ps)
      (openCreateMR schema host fullName sourceBranch targetBranch projectId).data =
    occurrencesAux (p :: ps) "://".data + occurrencesAux (p :: ps) "/".data +
      occurrencesAux (p :: ps)
        "/merge_requests/new?utf8=✓&merge_request%5Bsource_project_id%5D=".data +
      occurrencesAux (p :: ps) "&merge_request%5Bsource_branch%5D=".data +
      occurrencesAux (p :: ps) "&merge_request%5Btarget_project_id%5D=".data +
      occurrencesAux (p :: ps) "&merge_request%5Btarget_branch%5D=".data := by
  have hd : ∀ x : List Char, p ∉ x → p ∉ x.drop (x.length - ps.length) :=
    fun x hx hm => hx (List.mem_of_mem_drop hm)
  have e : ∀ s : String, plain s → escapeBrackets s = s :=
    fun s hs => escapeBrackets_of_not_mem s hs.1 hs.2.1
  have hn : p ∉ (fmt.formatInt projectId).data := hp ▸ (fmt.formatInt_plain projectId).2.2
  have z : ∀ s : String, plain s → occurrencesAux (p :: ps) s.data = 0 :=
    fun s hs => occurrencesAux_of_not_mem p ps _ (hp ▸ hs.2.2)
  rw [openCreateMR_segments, e _ h1, e _ h2, e _ h3, e _ h4, e _ h5, occurrencesAux_flatten]
  · simp only [List.map_cons, List.map_nil, List.sum_cons, List.sum_nil, z _ h1, z _ h2, z _ h3,
      z _ h4, z _ h5, occurrencesAux_of_not_mem p ps _ hn]
    omega
  · intro a ha
    simp only [List.mem_cons, List.mem_singleton, List.not_mem_nil, or_false] at ha
    rcases ha with rfl | rfl | rfl | rfl | rfl | rfl | rfl | rfl | rfl | rfl | rfl | rfl | rfl
    · exact hd _ (hp ▸ h1.2.2)
    · exact l1
    · exact hd _ (hp ▸ h2.2.2)
    · exact l2
    · exact hd _ (hp ▸ h3.2.2)
    · exact l3
    · exact hd _ hn
    · exact l4
    · exact hd _ (hp ▸ h4.2.2)
    · exact l5
    · exact hd _ hn
    · exact l6
    · exact hd _ (hp ▸ h5.2.2)

theorem escapeBrackets_no_brackets (u : String) :
    '[' ∉ (escapeBrackets u).data ∧ ']' ∉ (escapeBrackets u).data := by
  constructor <;>
  · intro h
    obtain ⟨a, _, ha⟩ := List.mem_flatMap.mp h
    by_cases h1 : a = '['
    · rw [if_pos h1] at ha; revert ha; decide
    · by_cases h2 : a = ']'
      · rw [if_neg h1, if_pos h2] at ha; revert ha; decide
      · rw [if_neg h1, if_neg h2, List.mem_singleton] at ha
        first
          | exact h1 ha.symm
          | exact h2 ha.symm

theorem getProjectId_loop_first (ToLower : String → String) (q : String)
    (pre : List project) (p : project) (post : List project)
    (hpre : ∀ r ∈ pre, ToLower r.PathWithNamespace ≠ ToLower q)
    (hp : ToLower p.PathWithNamespace = ToLower q) :
    getProjectId_loop ToLower q (pre ++ p :: post) = p.Id := by
  induction pre with
  | nil => simp [getProjectId_loop, hp]
  | cons r rs ih =>
    have hr : ¬ ToLower r.PathWithNamespace = ToLower q := hpre r (List.mem_cons_self _ _)
    have ih' := ih (fun x hx => hpre x (List.mem_cons_of_mem _ hx))
    simp [getProjectId_loop, hr, ih']

theorem getProjectId_loop_none (ToLower : String → String) (q : String) (projects : List project)
    (h : ∀ r ∈ projects, ToLower r.PathWithNamespace ≠ ToLower q) :
    getProjectId_loop ToLower q projects = 0 := by
  induction projects with
  | nil => rfl
  | cons r rs ih =>
    have hr : ¬ ToLower r.PathWithNamespace = ToLower q := h r (List.mem_cons_self _ _)
    have ih' := ih (fun x hx => h x (List.mem_cons_of_mem _ hx))
    simp [getProjectId_loop, hr, ih']

theorem first_match_or_none (ToLower : String → String) (q : String) (projects : List project) :
    (∀ r ∈ projects, ToLower r.PathWithNamespace ≠ ToLower q) ∨
      ∃ pre p post, projects = pre ++ p :: post ∧
        (∀ r ∈ pre, ToLower r.PathWithNamespace ≠ ToLower q) ∧
        ToLower p.PathWithNamespace = ToLower q := by
  induction projects with
  | nil => left; simp
  | cons r rs ih =>
    by_cases hr : ToLower r.PathWithNamespace = ToLower q
    · exact Or.inr ⟨[], r, rs, rfl, by simp, hr⟩
    · rcases ih with h | ⟨pre, p, post, e, hpre, hp⟩
      · left
        intro x hx
        rcases List.mem_cons.mp hx with rfl | hx
        · exact hr
        · exact h x hx
      · right
        refine ⟨r :: pre, p, post, by rw [e]; rfl, ?_, hp⟩
        intro x hx
        rcases List.mem_cons.mp hx with rfl | hx
        · exact hr
        · exact hpre x hx

theorem getProjectId_match_ok_iff (ToLower : String → String) (projects : List project)
    (q : String) (i : Int) :
    getProjectId_match ToLower projects q = (i, none) ↔
      getProjectId_loop ToLower q projects = i ∧ 0 < i := by
  unfold getProjectId_match
  simp only []
  by_cases h : getProjectId_loop ToLower q projects ≤ 0
  · rw [if_pos h]
    constructor
    · intro e; cases e
    · rintro ⟨e, hi⟩; omega
  · rw [if_neg h]
    constructor
    · intro e
      have e1 : getProjectId_loop ToLower q projects = i := congrArg Prod.fst e
      exact ⟨e1, by omega⟩
    · rintro ⟨e, _⟩; rw [e]

theorem getProjectId_match_err (ToLower : String → String) (projects : List project)
    (q : String) (h : getProjectId_loop ToLower q projects ≤ 0) :
    (getProjectId_match ToLower projects q).2 = some ⟨"get repository project id error", ""⟩ := by
  unfold getProjectId_match
  simp only []
  rw [if_pos h]

end bot

namespace time

theorem utod_eq_digitChar : ∀ d : Nat, d < 10 → utod d = Nat.digitChar d := by
  decide

theorem utod_isDigit : ∀ d : Nat, d < 10 → (utod d).isDigit = true := by
  decide

theorem utod_inj : ∀ a : Nat, a < 10 → ∀ b : Nat, b < 10 → utod a = utod b → a = b := by
  decide

theorem appendInt_two (n : Nat) (h : n < 100) :
    appendInt (n : Int) 2 = [utod (n / 10), utod (n % 10)] := by
  have h0 : ¬ ((n : Int) < 0) := by omega
  simp [appendInt, h0, h]

theorem appendInt_four (n : Nat) (h : n < 10000) :
    appendInt (n : Int) 4 =
      [utod (n / 1000), utod (n / 100 % 10), utod (n / 10 % 10), utod (n % 10)] := by
  have h0 : ¬ ((n : Int) < 0) := by omega
  simp [appendInt, h0, h]

/-- The fourteen characters of the stamp of a reading in calendar range. -/
theorem Format_valid (t : Time) (h : t.valid) :
    t.Format20060102150405.data =
      [utod (t.year.toNat / 1000), utod (t.year.toNat / 100 % 10), utod (t.year.toNat / 10 % 10),
        utod (t.year.toNat % 10), utod (t.month / 10), utod (t.month % 10), utod (t.day / 10),
        utod (t.day % 10), utod (t.hour / 10), utod (t.hour % 10), utod (t.minute / 10),
        utod (t.minute % 10), utod (t.second / 10), utod (t.second % 10)] := by
  obtain ⟨hy0, hy1, _, hm, _, hd, hh, hmi, hs⟩ := h
  have ey : t.year = ((t.year.toNat : Nat) : Int) := (Int.toNat_of_nonneg hy0).symm
  have hy : t.year.toNat < 10000 := by omega
  show appendInt t.year 4 ++ appendInt t.month 2 ++ appendInt t.day 2 ++
    appendInt t.hour 2 ++ appendInt t.minute 2 ++ appendInt t.second 2 = _
  have e4 := appendInt_four t.year.toNat hy
  rw [← ey] at e4
  rw [e4, appendInt_two _ (by omega), appendInt_two _ (by omega),
    appendInt_two _ (by omega), appendInt_two _ (by omega), appendInt_two _ (by omega)]
  rfl

theorem digitValue_utod : ∀ d : Nat, d < 10 → digitValue (utod d) = d := by
  decide

theorem digitValue_digitChar : ∀ d : Nat, d < 10 → digitValue (Nat.digitChar d) = d := by
  decide

theorem decimalValue_snoc (l : List Char) (c : Char) :
    decimalValue (l ++ [c]) = decimalValue l * 10 + digitValue c := by
  simp [decimalValue, List.foldl_append]

theorem foldl_zeros (k : Nat) (l : List Char) :
    decimalValue (List.replicate k '0' ++ l) = decimalValue l := by
  induction k with
  | zero => simp
  | succ k ih =>
    have e : decimalValue ('0' :: (List.replicate k '0' ++ l)) =
        decimalValue (List.replicate k '0' ++ l) := by
      simp [decimalValue, List.foldl_cons, digitValue]
    rw [List.replicate_succ, List.cons_append, e, ih]

theorem toDigitsCore_acc (fuel : Nat) : ∀ (n : Nat) (ds : List Char),
    Nat.toDigitsCore 10 fuel n ds = Nat.toDigitsCore 10 fuel n [] ++ ds := by
  induction fuel with
  | zero => intro n ds; simp [Nat.toDigitsCore]
  | succ f ih =>
    intro n ds
    unfold Nat.toDigitsCore
    by_cases hz : n / 10 = 0
    · simp [hz]
    · simp only [hz, if_false]
      rw [ih (n / 10) (Nat.digitChar (n % 10) :: ds), ih (n / 10) [Nat.digitChar (n % 10)]]
      simp

theorem toDigitsCore_value (fuel : Nat) : ∀ n : Nat, n < fuel →
    decimalValue (Nat.toDigitsCore 10 fuel n []) = n := by
  induction fuel with
  | zero => intro n h; omega
  | succ f ih =>
    intro n h
    unfold Nat.toDigitsCore
    have hd := digitValue_digitChar (n % 10) (Nat.mod_lt _ (by decide))
    by_cases hz : n / 10 = 0
    · simp only [hz, if_true]
      have : decimalValue [Nat.digitChar (n % 10)] = digitValue (Nat.digitChar (n % 10)) := by
        simp [decimalValue]
      rw [this, hd]
      omega
    · simp only [hz, if_false]
      rw [toDigitsCore_acc, decimalValue_snoc, ih (n / 10) (by omega), hd]
      omega

theorem toDigits_value (n : Nat) : decimalValue (Nat.toDigits 10 n) = n :=
  toDigitsCore_value _ _ (Nat.lt_succ_self n)

theorem toDigits_ne_nil (n : Nat) : Nat.toDigits 10 n ≠ [] := by
  intro h
  have hv := toDigits_value n
  unfold Nat.toDigits at h
  unfold Nat.toDigitsCore at h
  by_cases hz : n / 10 = 0
  · simp [hz] at h
  · simp only [hz, if_false] at h
    rw [toDigitsCore_acc] at h
    simp at h

theorem appendInt_four_body (x : Int) :
    ∃ body : List Char, appendInt x 4 = (if x < 0 then ['-'] else []) ++ body ∧
      decimalValue body = x.natAbs ∧ body ≠ [] ∧ ∀ c ∈ body, c.isDigit = true := by
  by_cases hu : x.natAbs < 10000
  · refine ⟨[utod (x.natAbs / 1000), utod (x.natAbs / 100 % 10), utod (x.natAbs / 10 % 10),
      utod (x.natAbs % 10)], by simp [appendInt, hu], ?_, by simp, ?_⟩
    · have e : decimalValue [utod (x.natAbs / 1000), utod (x.natAbs / 100 % 10),
          utod (x.natAbs / 10 % 10), utod (x.natAbs % 10)] =
          ((digitValue (utod (x.natAbs / 1000)) * 10 + digitValue (utod (x.natAbs / 100 % 10))) * 10
            + digitValue (utod (x.natAbs / 10 % 10))) * 10 + digitValue (utod (x.natAbs % 10)) := by
        simp [decimalValue]
      rw [e, digitValue_utod _ (by omega), digitValue_utod _ (by omega),
        digitValue_utod _ (by omega), digitValue_utod _ (by omega)]
      omega
    · intro c hc
      simp only [List.mem_cons, List.mem_singleton, List.not_mem_nil, or_false] at hc
      rcases hc with rfl | rfl | rfl | rfl <;> exact utod_isDigit _ (by omega)
  · refine ⟨List.replicate (4 - (Nat.toDigits 10 x.natAbs).length) '0' ++ Nat.toDigits 10 x.natAbs,
      by simp [appendInt, hu], ?_, ?_, ?_⟩
    · rw [foldl_zeros, toDigits_value]
    · intro h
      exact toDigits_ne_nil _ (List.append_eq_nil.mp h).2
    · intro c hc
      rcases List.mem_append.mp hc with h | h
      · rw [(List.mem_replicate.mp h).2]; decide
      · exact fmt.toDigits_isDigit _ c h

/-- The year chunk of the layout determines the year. -/
theorem appendInt_four_inj (x y : Int) (h : appendInt x 4 = appendInt y 4) : x = y := by
  obtain ⟨bx, ex, vx, nx, dx⟩ := appendInt_four_body x
  obtain ⟨bY, ey, vy, ny, dy⟩ := appendInt_four_body y
  rw [ex, ey] at h
  have hsign : ∀ (b b' : List Char), (∀ c ∈ b', c.isDigit = true) → '-' :: b = b' → False := by
    intro b b' hd e
    have hm : '-' ∈ b' := e ▸ List.mem_cons_self _ _
    have := hd _ hm
    revert this
    decide
  by_cases hx : x < 0 <;> by_cases hy : y < 0
  · simp only [hx, hy, if_true, List.singleton_append, List.cons.injEq, true_and] at h
    have : x.natAbs = y.natAbs := by rw [← vx, ← vy, h]
    omega
  · simp only [hx, hy, if_true, if_false, List.singleton_append, List.nil_append] at h
    exact (hsign _ _ dy h).elim
  · simp only [hx, hy, if_true, if_false, List.singleton_append, List.nil_append] at h
    exact (hsign _ _ dx h.symm).elim
  · simp only [hx, hy, if_false, List.nil_append] at h
    have : x.natAbs = y.natAbs := by rw [← vx, ← vy, h]
    omega

/-- The stamp of a reading in calendar range: the year chunk followed by ten
digits. -/
theorem Format_inCalendar (t : Time) (h : t.inCalendar) :
    t.Format20060102150405.data =
      appendInt t.year 4 ++
        [utod (t.month / 10), utod (t.month % 10), utod (t.day / 10),
          utod (t.day % 10), utod (t.hour / 10), utod (t.hour % 10), utod (t.minute / 10),
          utod (t.minute % 10), utod (t.second / 10), utod (t.second % 10)] := by
  obtain ⟨_, hm, _, hd, hh, hmi, hs⟩ := h
  show appendInt t.year 4 ++ appendInt t.month 2 ++ appendInt t.day 2 ++
    appendInt t.hour 2 ++ appendInt t.minute 2 ++ appendInt t.second 2 = _
  rw [appendInt_two _ (by omega), appendInt_two _ (by omega),
    appendInt_two _ (by omega), appendInt_two _ (by omega), appendInt_two _ (by omega)]
  simp

/-- Readings in calendar range with the same stamp are the same reading. -/
theorem Format_injective (t1 t2 : Time) (h1 : t1.inCalendar) (h2 : t2.inCalendar)
    (h : t1.Format20060102150405 = t2.Format20060102150405) : t1 = t2 := by
  have hd := congrArg String.data h
  rw [Format_inCalendar t1 h1, Format_inCalendar t2 h2] at hd
  obtain ⟨hy, hr⟩ := List.append_inj' hd rfl
  obtain ⟨_, am, _, ad, ah, ami, as⟩ := h1
  obtain ⟨_, bm, _, bd, bh, bmi, bs⟩ := h2
  simp only [List.cons.injEq, and_true] at hr
  obtain ⟨e5, e6, e7, e8, e9, e10, e11, e12, e13, e14⟩ := hr
  have f5 := utod_inj _ (by omega) _ (by omega) e5
  have f6 := utod_inj _ (by omega) _ (by omega) e6
  have f7 := utod_inj _ (by omega) _ (by omega) e7
  have f8 := utod_inj _ (by omega) _ (by omega) e8
  have f9 := utod_inj _ (by omega) _ (by omega) e9
  have f10 := utod_inj _ (by omega) _ (by omega) e10
  have f11 := utod_inj _ (by omega) _ (by omega) e11
  have f12 := utod_inj _ (by omega) _ (by omega) e12
  have f13 := utod_inj _ (by omega) _ (by omega) e13
  have f14 := utod_inj _ (by omega) _ (by omega) e14
  have gy : t1.year = t2.year := appendInt_four_inj _ _ hy
  have gm : t1.month = t2.month := by omega
  have gd : t1.day = t2.day := by omega
  have gh : t1.hour = t2.hour := by omega
  have gmi : t1.minute = t2.minute := by omega
  have gs : t1.second = t2.second := by omega
  cases t1
  cases t2
  simp only [Time.mk.injEq]
  exact ⟨gy, gm, gd, gh, gmi, gs⟩

/-- In a common year `monthDay` yields a month and day in range and is undone
by `ydayOf`. -/
theorem monthDay_common : ∀ yday : Nat, yday < 365 →
    (1 ≤ (monthDay false yday).1 ∧ (monthDay false yday).1 ≤ 12 ∧
      1 ≤ (monthDay false yday).2 ∧ (monthDay false yday).2 ≤ 31 ∧
      ydayOf false (monthDay false yday) = yday) := by
  decide

/-- In a leap year `monthDay` yields a month and day in range and is undone by
`ydayOf`. -/
theorem monthDay_leap : ∀ yday : Nat, yday < 366 →
    (1 ≤ (monthDay true yday).1 ∧ (monthDay true yday).1 ≤ 12 ∧
      1 ≤ (monthDay true yday).2 ∧ (monthDay true yday).2 ≤ 31 ∧
      ydayOf true (monthDay true yday) = yday) := by
  decide

/-- The year and day of the year of a day count, with the cycle counts that
make it up; day 365 occurs in leap years only. -/
theorem yearDay_spec (days : Int) :
    ∃ (n400 : Int) (n100 n4 n1 : Nat),
      n100 ≤ 3 ∧ n4 ≤ 24 ∧ n1 ≤ 3 ∧
      yearDay days = (400 * n400 + 100 * n100 + 4 * n4 + n1 + 1,
        (days - (146097 * n400 + 36524 * n100 + 1461 * n4 + 365 * n1)).toNat) ∧
      0 ≤ days - (146097 * n400 + 36524 * n100 + 1461 * n4 + 365 * n1) ∧
      days - (146097 * n400 + 36524 * n100 + 1461 * n4 + 365 * n1) ≤ 365 ∧
      (days - (146097 * n400 + 36524 * n100 + 1461 * n4 + 365 * n1) = 365 →
        n1 = 3 ∧ (n4 = 24 → n100 = 3)) := by
  refine ⟨days / 146097,
    (days % 146097).toNat / 36524 - (days % 146097).toNat / 36524 / 4,
    ((days % 146097).toNat - 36524 * ((days % 146097).toNat / 36524 -
      (days % 146097).toNat / 36524 / 4)) / 1461,
    (((days % 146097).toNat - 36524 * ((days % 146097).toNat / 36524 -
      (days % 146097).toNat / 36524 / 4)) - 1461 * (((days % 146097).toNat - 36524 *
      ((days % 146097).toNat / 36524 - (days % 146097).toNat / 36524 / 4)) / 1461)) / 365 -
      (((days % 146097).toNat - 36524 * ((days % 146097).toNat / 36524 -
      (days % 146097).toNat / 36524 / 4)) - 1461 * (((days % 146097).toNat - 36524 *
      ((days % 146097).toNat / 36524 - (days % 146097).toNat / 36524 / 4)) / 1461)) / 365 / 4,
    by omega, by omega, by omega, ?_, by omega, by omega, by omega⟩
  simp only [yearDay, Prod.mk.injEq]
  refine ⟨trivial, ?_⟩
  omega

theorem isLeap_iff (n400 : Int) (n100 n4 n1 : Nat) (h100 : n100 ≤ 3) (h4 : n4 ≤ 24)
    (h1 : n1 ≤ 3) :
    isLeap (400 * n400 + 100 * n100 + 4 * n4 + n1 + 1) = true ↔
      (n1 = 3 ∧ (n4 = 24 → n100 = 3)) := by
  simp only [isLeap, Bool.and_eq_true, Bool.or_eq_true, beq_iff_eq, bne_iff_ne, ne_eq]
  constructor
  · rintro ⟨a, b⟩
    refine ⟨by omega, fun h => ?_⟩
    rcases b with b | b <;> omega
  · rintro ⟨a, b⟩
    refine ⟨by omega, ?_⟩
    by_cases h : n4 = 24
    · right
      have := b h
      omega
    · left
      omega

/-- The conversion on known dates: the Unix epoch, the second before it, the
leap day of 2000, the day after 28 February 2100 and the first second of
year 1. -/
theorem civil_known_dates :
    civil 0 = ⟨1970, 1, 1, 0, 0, 0⟩ ∧ civil (-1) = ⟨1969, 12, 31, 23, 59, 59⟩ ∧
      civil 951782400 = ⟨2000, 2, 29, 0, 0, 0⟩ ∧ civil 4107542400 = ⟨2100, 3, 1, 0, 0, 0⟩ ∧
      civil (-62135596800) = ⟨1, 1, 1, 0, 0, 0⟩ := by
  decide

/-- The calendar fields computed for an instant are in calendar range. -/
theorem civil_inCalendar (loc : Int) : (civil loc).inCalendar := by
  obtain ⟨n400, n100, n4, n1, h100, h4, h1, e, lo, hi, h365⟩ :=
    yearDay_spec (loc / 86400 + 719162)
  have hs : (loc % 86400).toNat < 86400 := by omega
  have hleap := isLeap_iff n400 n100 n4 n1 h100 h4 h1
  simp only [civil, Time.inCalendar, e]
  generalize hy : ((loc / 86400 + 719162 -
    (146097 * n400 + 36524 * (n100 : Int) + 1461 * (n4 : Int) + 365 * (n1 : Int))).toNat) = yday
  have hyd : yday ≤ 365 := by omega
  have hyd' : yday = 365 → (n1 = 3 ∧ (n4 = 24 → n100 = 3)) := fun h => h365 (by omega)
  cases hl : isLeap (400 * n400 + 100 * (n100 : Int) + 4 * (n4 : Int) + (n1 : Int) + 1) with
  | true =>
    obtain ⟨a, b, c, d, _⟩ := monthDay_leap yday (by omega)
    exact ⟨a, b, c, d, by omega, by omega, by omega⟩
  | false =>
    have hne : yday ≠ 365 := by
      intro h
      have := hleap.mpr (hyd' h)
      rw [hl] at this
      cases this
    obtain ⟨a, b, c, d, _⟩ := monthDay_common yday (by omega)
    exact ⟨a, b, c, d, by omega, by omega, by omega⟩

theorem year_parts_unique (a400 b400 : Int) (a100 a4 a1 b100 b4 b1 : Nat)
    (ha100 : a100 ≤ 3) (ha4 : a4 ≤ 24) (ha1 : a1 ≤ 3)
    (hb100 : b100 ≤ 3) (hb4 : b4 ≤ 24) (hb1 : b1 ≤ 3)
    (h : 400 * a400 + 100 * (a100 : Int) + 4 * (a4 : Int) + (a1 : Int) + 1 =
      400 * b400 + 100 * (b100 : Int) + 4 * (b4 : Int) + (b1 : Int) + 1) :
    a400 = b400 ∧ a100 = b100 ∧ a4 = b4 ∧ a1 = b1 := by
  omega

theorem clock_unique (s1 s2 : Nat) (h1 : s1 / 3600 = s2 / 3600)
    (h2 : s1 % 3600 / 60 = s2 % 3600 / 60) (h3 : s1 % 60 = s2 % 60) : s1 = s2 := by
  omega

theorem local_unique (l1 l2 x : Int) (lo1 : 0 ≤ l1 / 86400 + 719162 - x)
    (lo2 : 0 ≤ l2 / 86400 + 719162 - x)
    (hd : (l1 / 86400 + 719162 - x).toNat = (l2 / 86400 + 719162 - x).toNat)
    (hs : (l1 % 86400).toNat = (l2 % 86400).toNat) : l1 = l2 := by
  omega

/-- Two local seconds with the same calendar fields are the same second. -/
theorem civil_injective (l1 l2 : Int) (h : civil l1 = civil l2) : l1 = l2 := by
  obtain ⟨a400, a100, a4, a1, ha100, ha4, ha1, ea, alo, ahi, a365⟩ :=
    yearDay_spec (l1 / 86400 + 719162)
  obtain ⟨b400, b100, b4, b1, hb100, hb4, hb1, eb, blo, bhi, b365⟩ :=
    yearDay_spec (l2 / 86400 + 719162)
  simp only [civil, ea, eb, Time.mk.injEq] at h
  obtain ⟨hy, hm, hd, hh, hmi, hsec⟩ := h
  obtain ⟨e400, e100, e4, e1⟩ :=
    year_parts_unique a400 b400 a100 a4 a1 b100 b4 b1 ha100 ha4 ha1 hb100 hb4 hb1 hy
  subst e400 e100 e4 e1
  have hs := clock_unique _ _ hh hmi hsec
  refine local_unique l1 l2 _ alo blo ?_ hs
  have hleap := isLeap_iff a400 a100 a4 a1 ha100 ha4 ha1
  have hya : (l1 / 86400 + 719162 - (146097 * a400 + 36524 * (a100 : Int) + 1461 * (a4 : Int) +
      365 * (a1 : Int))).toNat ≤ 365 := Int.toNat_le.mpr ahi
  have hyb : (l2 / 86400 + 719162 - (146097 * a400 + 36524 * (a100 : Int) + 1461 * (a4 : Int) +
      365 * (a1 : Int))).toNat ≤ 365 := Int.toNat_le.mpr bhi
  have ha365 : (l1 / 86400 + 719162 - (146097 * a400 + 36524 * (a100 : Int) +
      1461 * (a4 : Int) + 365 * (a1 : Int))).toNat = 365 → (a1 = 3 ∧ (a4 = 24 → a100 = 3)) :=
    fun e => a365 (by rw [← Int.toNat_of_nonneg alo, e]; rfl)
  have hb365 : (l2 / 86400 + 719162 - (146097 * a400 + 36524 * (a100 : Int) +
      1461 * (a4 : Int) + 365 * (a1 : Int))).toNat = 365 → (a1 = 3 ∧ (a4 = 24 → a100 = 3)) :=
    fun e => b365 (by rw [← Int.toNat_of_nonneg blo, e]; rfl)
  generalize ((l1 / 86400 + 719162 -
    (146097 * a400 + 36524 * (a100 : Int) + 1461 * (a4 : Int) + 365 * (a1 : Int))).toNat) = ya
    at hm hd hya ha365 ⊢
  generalize ((l2 / 86400 + 719162 -
    (146097 * a400 + 36524 * (a100 : Int) + 1461 * (a4 : Int) + 365 * (a1 : Int))).toNat) = yb
    at hm hd hyb hb365 ⊢
  have hmd : monthDay (isLeap (400 * a400 + 100 * (a100 : Int) + 4 * (a4 : Int) + (a1 : Int) + 1))
        ya =
      monthDay (isLeap (400 * a400 + 100 * (a100 : Int) + 4 * (a4 : Int) + (a1 : Int) + 1)) yb :=
    Prod.ext hm hd
  cases hl : isLeap (400 * a400 + 100 * (a100 : Int) + 4 * (a4 : Int) + (a1 : Int) + 1) with
  | true =>
    rw [hl] at hmd
    have p := (monthDay_leap ya (Nat.lt_succ_of_le hya)).2.2.2.2
    have q := (monthDay_leap yb (Nat.lt_succ_of_le hyb)).2.2.2.2
    rw [← p, ← q, hmd]
  | false =>
    rw [hl] at hmd
    have na : ya ≠ 365 := by
      intro h
      have := hleap.mpr (ha365 h)
      rw [hl] at this
      cases this
    have nb : yb ≠ 365 := by
      intro h
      have := hleap.mpr (hb365 h)
      rw [hl] at this
      cases this
    have p := (monthDay_common ya (Nat.lt_of_le_of_ne hya na)).2.2.2.2
    have q := (monthDay_common yb (Nat.lt_of_le_of_ne hyb nb)).2.2.2.2
    rw [← p, ← q, hmd]

end time

namespace bot

theorem newBranch_cancel (b : String) (revert : Bool) (x y : String)
    (h : (if revert then "revert-" ++ (b ++ "-dev-replacer-" ++ x)
          else b ++ "-dev-replacer-" ++ x) =
         (if revert then "revert-" ++ (b ++ "-dev-replacer-" ++ y)
          else b ++ "-dev-replacer-" ++ y)) : x = y := by
  cases revert <;>
  · have hd := congrArg String.data h
    simp only [String.data_append, List.append_assoc, if_true, if_false, Bool.false_eq_true] at hd
    exact String.ext (List.append_cancel_left (List.append_cancel_left
      (by first
        | exact hd
        | exact List.append_cancel_left hd)))

theorem commitMessage_revert (tag message : String) :
    commitMessage tag message true = "chore(revert replace " ++ tag ++ "): " ++ message := by
  have e : commitMessage tag message true =
      "chore(revert replace " ++ (tag ++ ("): " ++ (message ++ ""))) := rfl
  rw [e]
  simp only [String.append_assoc, String.append_empty]

theorem commitMessage_replace (tag message : String) :
    commitMessage tag message false = "chore(replace " ++ tag ++ "): " ++ message := by
  have e : commitMessage tag message false =
      "chore(replace " ++ (tag ++ ("): " ++ (message ++ ""))) := rfl
  rw [e]
  simp only [String.append_assoc, String.append_empty]

/-- No string is an instance of both commit-message templates: the two
fixed openings differ at their ninth character. -/
theorem templates_disjoint (tag message tag' message' : String) :
    "chore(revert replace " ++ tag ++ "): " ++ message ≠
      "chore(replace " ++ tag' ++ "): " ++ message' := by
  intro h
  have h8 := congrArg (fun s : String => s.data.get? 8) h
  have l : ("chore(revert replace " ++ tag ++ "): " ++ message).data.get? 8 = some 'v' := rfl
  have r : ("chore(replace " ++ tag' ++ "): " ++ message').data.get? 8 = some 'p' := rfl
  simp only [l, r] at h8
  revert h8
  decide

set_option maxHeartbeats 1000000 in
/-- Every run of `bot.Run` starts with `url.Parse` and is a chain of calls
ended by the error it returns. -/
theorem Run_chain (w : World) (ToLower : String → String)
    (repoUrl username password originBranch tag savePath commitMessage replacerFile replacerUrl
      replacerConf replacerConfUrl : String)
    (gitlabGroupId : Int) (gitlabToken : String) (revert : Bool) (r : Result)
    (hr : Run w ToLower repoUrl username password originBranch tag savePath commitMessage
        replacerFile replacerUrl replacerConf replacerConfUrl gitlabGroupId gitlabToken
        revert = r) :
    chain (w.outcome ToLower) r.calls r.err ∧ r.calls.head? = some (Call.Parse repoUrl) := by
  unfold Run at hr
  simp only [] at hr
  repeat' split at hr
  all_goals subst hr
  all_goals simp only [List.cons_append, List.nil_append, chain, World.outcome, Call.stage]
  all_goals simp [*]

set_option maxHeartbeats 1000000 in
/-- The values `Run` hands to checkout, to the transform, to commit and to
the link. -/
theorem Run_values (w : World) (ToLower : String → String)
    (repoUrl username password originBranch tag savePath commitMessage replacerFile replacerUrl
      replacerConf replacerConfUrl : String)
    (gitlabGroupId : Int) (gitlabToken : String) (revert : Bool) (r : Result)
    (hr : Run w ToLower repoUrl username password originBranch tag savePath commitMessage
        replacerFile replacerUrl replacerConf replacerConfUrl gitlabGroupId gitlabToken
        revert = r) :
    (∀ branch, Call.Checkout branch ∈ r.calls → branch = newBranch originBranch w.Now revert) ∧
    (∀ root tg rc rcu rf ru rv, Call.starterRun root tg rc rcu rf ru rv ∈ r.calls →
      tg = tag ∧ rc = replacerConf ∧ rcu = replacerConfUrl ∧ rf = replacerFile ∧
        ru = replacerUrl ∧ rv = revert) ∧
    (∀ m a em, Call.Commit m a em ∈ r.calls →
      m = bot.commitMessage tag commitMessage revert ∧ a = "replacerbot" ∧ em = username) ∧
    (∀ sc h f sb tb i, Call.openCreateMR sc h f sb tb i ∈ r.calls →
      sb = newBranch originBranch w.Now revert ∧ tb = originBranch) := by
  unfold Run at hr
  simp only [] at hr
  repeat' split at hr
  all_goals subst hr
  all_goals simp only [List.cons_append, List.nil_append]
  all_goals simp
  all_goals exact fun _ _ _ _ _ _ _ _ _ h1 h2 _ => ⟨h1, h2⟩

theorem chain_head_lt (out : Call → Option GoError) (e : Option GoError) :
    ∀ (l : List Call) (c : Call), chain out (c :: l) e → ∀ d ∈ l, c.stage < d.stage := by
  intro l
  induction l with
  | nil => intro c _ d hd; cases hd
  | cons x xs ih =>
    intro c h d hd
    obtain ⟨_, hlt, _, hrest⟩ := h
    rcases List.mem_cons.mp hd with rfl | hd
    · exact hlt
    · exact Nat.lt_trans hlt (ih x hrest d hd)

theorem chain_fail (out : Call → Option GoError) (e : Option GoError) :
    ∀ (l : List Call), chain out l e → ∀ c ∈ l, ∀ x, out c = some x →
      e = some x ∧ l.getLast? = some c ∧ ∀ d ∈ l, d.stage ≤ c.stage := by
  intro l
  induction l with
  | nil => intro h; cases h
  | cons a as ih =>
    cases as with
    | nil =>
      intro h c hc x hx
      have hca : c = a := by simpa using hc
      subst hca
      have h' : out c = e := h
      refine ⟨by rw [← h', hx], rfl, ?_⟩
      intro d hd
      have hdc : d = c := by simpa using hd
      rw [hdc]
    | cons b bs =>
      intro h c hc x hx
      obtain ⟨ha, hlt, _, hrest⟩ := h
      rcases List.mem_cons.mp hc with rfl | hc
      · rw [ha] at hx; cases hx
      · obtain ⟨h1, h2, h3⟩ := ih hrest c hc x hx
        refine ⟨h1, by rw [List.getLast?_cons_cons]; exact h2, ?_⟩
        intro d hd
        rcases List.mem_cons.mp hd with rfl | hd
        · have hb : b.stage ≤ c.stage := h3 b (List.mem_cons_self _ _)
          omega
        · exact h3 d hd

theorem chain_last (out : Call → Option GoError) (e : Option GoError) :
    ∀ (l : List Call), chain out l e → ∃ c, l.getLast? = some c ∧ out c = e := by
  intro l
  induction l with
  | nil => intro h; cases h
  | cons a as ih =>
    cases as with
    | nil => intro h; exact ⟨a, rfl, h⟩
    | cons b bs =>
      intro h
      obtain ⟨c, h1, h2⟩ := ih h.2.2.2
      exact ⟨c, by rw [List.getLast?_cons_cons]; exact h1, h2⟩

theorem chain_order (out : Call → Option GoError) (e : Option GoError) :
    ∀ (l : List Call), chain out l e → (l.map Call.stage).Pairwise (fun a b => a < b) := by
  intro l
  induction l with
  | nil => intro h; cases h
  | cons a as ih =>
    intro h
    rw [List.map_cons, List.pairwise_cons]
    constructor
    · intro n hn
      obtain ⟨d, hd, rfl⟩ := List.mem_map.mp hn
      exact chain_head_lt out e as a h d hd
    · cases as with
      | nil => exact List.Pairwise.nil
      | cons b bs => exact ih h.2.2.2

theorem chain_pred (out : Call → Option GoError) (e : Option GoError) :
    ∀ (l : List Call) (a : Call), chain out (a :: l) e → ∀ c ∈ l, 8 ≤ c.stage →
      ∃ d ∈ a :: l, d.stage + 1 = c.stage ∧ out d = none := by
  intro l
  induction l with
  | nil => intro a _ c hc; cases hc
  | cons b bs ih =>
    intro a h c hc h8
    obtain ⟨ha, _, hstep, hrest⟩ := h
    rcases List.mem_cons.mp hc with rfl | hc
    · exact ⟨a, List.mem_cons_self _ _, (hstep h8).symm, ha⟩
    · obtain ⟨d, hd, h1, h2⟩ := ih b hrest c hc h8
      exact ⟨d, List.mem_cons_of_mem _ hd, h1, h2⟩

/-- From the transform on, a call of a run comes after a successful call of
the stage just before it. -/
theorem Run_pred (w : World) (ToLower : String → String)
    (repoUrl username password originBranch tag savePath commitMessage replacerFile replacerUrl
      replacerConf replacerConfUrl : String)
    (gitlabGroupId : Int) (gitlabToken : String) (revert : Bool) (r : Result)
    (hr : Run w ToLower repoUrl username password originBranch tag savePath commitMessage
        replacerFile replacerUrl replacerConf replacerConfUrl gitlabGroupId gitlabToken
        revert = r) :
    ∀ c ∈ r.calls, 8 ≤ c.stage →
      ∃ d ∈ r.calls, d.stage + 1 = c.stage ∧ w.outcome ToLower d = none := by
  obtain ⟨hc, hh⟩ := Run_chain w ToLower repoUrl username password originBranch tag savePath
    commitMessage replacerFile replacerUrl replacerConf replacerConfUrl gitlabGroupId gitlabToken
    revert r hr
  intro c hmem h8
  cases hl : r.calls with
  | nil => rw [hl] at hmem; cases hmem
  | cons a as =>
    rw [hl] at hc hh hmem
    have ha : a = Call.Parse repoUrl := by simpa using hh
    rcases List.mem_cons.mp hmem with rfl | hmem
    · rw [ha] at h8; simp [Call.stage] at h8
    · exact chain_pred _ _ as a hc c hmem h8

end bot

/-! ## The merge-request link (C1, C2, C3) -/

namespace bot

/-- C1, counterexample: for a repository on the IPv6 host `[2001:db8::1]`
the URL returned by `openCreateMR` is not the format with the inputs inserted
unchanged: the brackets of the host are percent-encoded as well. -/
theorem openCreateMR_not_verbatim :
    openCreateMR "https" "[2001:db8::1]" "group/app" "main-dev-replacer-20240102030405"
        "main" 7 =
      "https://%5B2001:db8::1%5D/group/app/merge_requests/new?utf8=✓&merge_request%5Bsource_project_id%5D=7&merge_request%5Bsource_branch%5D=main-dev-replacer-20240102030405&merge_request%5Btarget_project_id%5D=7&merge_request%5Btarget_branch%5D=main" ∧
    openCreateMR "https" "[2001:db8::1]" "group/app" "main-dev-replacer-20240102030405"
        "main" 7 ≠
      specMRUrl "https" "[2001:db8::1]" "group/app" "main-dev-replacer-20240102030405"
        "main" 7 := by
  decide

/-- C1, amended: the URL returned by `openCreateMR` is the format of the
specification, with the project id in decimal, applied to the inputs after
their own `[` and `]` have been replaced by `%5B` and `%5D` (the replacement
runs over the whole formatted URL); no other character is changed, and when
no input contains a square bracket every input is inserted unchanged. -/
theorem openCreateMR_spec (schema host fullName sourceBranch targetBranch : String)
    (projectId : Int) :
    openCreateMR schema host fullName sourceBranch targetBranch projectId =
        specMRUrl (escapeBrackets schema) (escapeBrackets host) (escapeBrackets fullName)
          (escapeBrackets sourceBranch) (escapeBrackets targetBranch) projectId ∧
      ((∀ s ∈ [schema, host, fullName, sourceBranch, targetBranch],
          '[' ∉ s.data ∧ ']' ∉ s.data) →
        openCreateMR schema host fullName sourceBranch targetBranch projectId =
          specMRUrl schema host fullName sourceBranch targetBranch projectId) := by
  refine ⟨openCreateMR_eq _ _ _ _ _ _, fun h => ?_⟩
  have e : ∀ s ∈ [schema, host, fullName, sourceBranch, targetBranch], escapeBrackets s = s :=
    fun s hs => escapeBrackets_of_not_mem s (h s hs).1 (h s hs).2
  rw [openCreateMR_eq, e schema (by simp), e host (by simp), e fullName (by simp),
    e sourceBranch (by simp), e targetBranch (by simp)]

/-- C1, witness of the amended statement on a bracket-free input. -/
theorem openCreateMR_spec_witness :
    openCreateMR "https" "gitlab.example.com" "group/app" "main-dev-replacer-20240101000000"
        "main" 7 =
      "https://gitlab.example.com/group/app/merge_requests/new?utf8=✓&merge_request%5Bsource_project_id%5D=7&merge_request%5Bsource_branch%5D=main-dev-replacer-20240101000000&merge_request%5Btarget_project_id%5D=7&merge_request%5Btarget_branch%5D=main" :=
  ((openCreateMR_spec "https" "gitlab.example.com" "group/app"
    "main-dev-replacer-20240101000000" "main" 7).2 (by decide)).trans (by decide)

/-- C2, counterexample: on a plain input the URL holds four occurrences of
`%5B` and four of `%5D`, not two. -/
theorem openCreateMR_occurrences_not_two :
    ¬ (occurrences "%5B" (openCreateMR "https" "gitlab.example.com" "group/app"
          "main-dev-replacer-20240101000000" "main" 7) = 2 ∧
        occurrences "%5D" (openCreateMR "https" "gitlab.example.com" "group/app"
          "main-dev-replacer-20240101000000" "main" 7) = 2) := by
  decide

/-- C2, amended: the URL returned by `openCreateMR` never holds fewer than
four occurrences of `%5B` and four of `%5D` (one pair for each of the four
query-parameter names), and it holds exactly four of each whenever no string
input contains `[`, `]` or `%`. -/
theorem openCreateMR_occurrences (schema host fullName sourceBranch targetBranch : String)
    (projectId : Int) :
    (4 ≤ occurrences "%5B"
        (openCreateMR schema host fullName sourceBranch targetBranch projectId) ∧
      4 ≤ occurrences "%5D"
        (openCreateMR schema host fullName sourceBranch targetBranch projectId)) ∧
    (plain schema → plain host → plain fullName → plain sourceBranch → plain targetBranch →
      occurrences "%5B"
          (openCreateMR schema host fullName sourceBranch targetBranch projectId) = 4 ∧
        occurrences "%5D"
          (openCreateMR schema host fullName sourceBranch targetBranch projectId) = 4) := by
  refine ⟨⟨?_, ?_⟩, fun h1 h2 h3 h4 h5 => ⟨?_, ?_⟩⟩
  · exact Nat.le_trans (by decide)
      (occurrences_openCreateMR_ge '%' ['5', 'B'] schema host fullName sourceBranch targetBranch
        projectId)
  · exact Nat.le_trans (by decide)
      (occurrences_openCreateMR_ge '%' ['5', 'D'] schema host fullName sourceBranch targetBranch
        projectId)
  · exact (occurrences_openCreateMR_plain '%' ['5', 'B'] rfl schema host fullName sourceBranch
      targetBranch projectId h1 h2 h3 h4 h5 (by decide) (by decide) (by decide) (by decide)
      (by decide) (by decide)).trans (by decide)
  · exact (occurrences_openCreateMR_plain '%' ['5', 'D'] rfl schema host fullName sourceBranch
      targetBranch projectId h1 h2 h3 h4 h5 (by decide) (by decide) (by decide) (by decide)
      (by decide) (by decide)).trans (by decide)

/-- C2, witness of the amended statement on a plain input. -/
theorem openCreateMR_occurrences_witness :
    occurrences "%5B" (openCreateMR "https" "gitlab.example.com" "group/app"
        "main-dev-replacer-20240101000000" "main" 7) = 4 ∧
      occurrences "%5D" (openCreateMR "https" "gitlab.example.com" "group/app"
        "main-dev-replacer-20240101000000" "main" 7) = 4 :=
  (openCreateMR_occurrences "https" "gitlab.example.com" "group/app"
    "main-dev-replacer-20240101000000" "main" 7).2 (by decide) (by decide) (by decide)
    (by decide) (by decide)

/-- C3: for every input, also one whose scheme, host, path or branch names
contain square brackets, the URL returned by `openCreateMR` contains neither
the character `[` nor the character `]`. -/
theorem openCreateMR_no_brackets (schema host fullName sourceBranch targetBranch : String)
    (projectId : Int) :
    '[' ∉ (openCreateMR schema host fullName sourceBranch targetBranch projectId).data ∧
      ']' ∉ (openCreateMR schema host fullName sourceBranch targetBranch projectId).data := by
  unfold openCreateMR
  simp only []
  rw [ReplaceAll_brackets]
  exact escapeBrackets_no_brackets _

end bot

/-! ## Project resolution (C4) -/

namespace bot

/-- C4: the matching step of `getProjectId` succeeds with id `i` if and only
if the first record in list order whose `path_with_namespace` equals the
query after lowering both (equality of the whole strings) has id `i` and
`i > 0`; it returns the error when no record matches, so for the empty list,
and when that first match has a non-positive id.  On the list
`[(1, "Foo/Bar"), (2, "baz/qux")]` every spelling of `foo/bar` yields 1, and
`nope/nope` and the proper prefix `foo/ba` yield the error. -/
theorem getProjectId_match_spec (ToLower : String → String) (projects : List project)
    (q : String) :
    (∀ i : Int, getProjectId_match ToLower projects q = (i, none) ↔
      ∃ pre p post, projects = pre ++ p :: post ∧
        (∀ r ∈ pre, ToLower r.PathWithNamespace ≠ ToLower q) ∧
        ToLower p.PathWithNamespace = ToLower q ∧ p.Id = i ∧ 0 < i) ∧
    ((∀ r ∈ projects, ToLower r.PathWithNamespace ≠ ToLower q) →
      (getProjectId_match ToLower projects q).2 =
        some ⟨"get repository project id error", ""⟩) ∧
    (getProjectId_match ToLower [] q).2 = some ⟨"get repository project id error", ""⟩ ∧
    (∀ pre p post, projects = pre ++ p :: post →
      (∀ r ∈ pre, ToLower r.PathWithNamespace ≠ ToLower q) →
      ToLower p.PathWithNamespace = ToLower q → p.Id ≤ 0 →
      (getProjectId_match ToLower projects q).2 =
        some ⟨"get repository project id error", ""⟩) ∧
    (∀ s : String, strings.ToLowerASCII s = "foo/bar" →
      getProjectId_match strings.ToLowerASCII
        [⟨1, "", "", "", "Foo/Bar"⟩, ⟨2, "", "", "", "baz/qux"⟩] s = (1, none)) ∧
    (getProjectId_match strings.ToLowerASCII
        [⟨1, "", "", "", "Foo/Bar"⟩, ⟨2, "", "", "", "baz/qux"⟩] "nope/nope").2 =
      some ⟨"get repository project id error", ""⟩ ∧
    (getProjectId_match strings.ToLowerASCII
        [⟨1, "", "", "", "Foo/Bar"⟩, ⟨2, "", "", "", "baz/qux"⟩] "foo/ba").2 =
      some ⟨"get repository project id error", ""⟩ := by
  refine ⟨fun i => ?_, fun h => ?_, ?_, fun pre p post e hpre hp hid => ?_, fun s hs => ?_,
    by decide, by decide⟩
  · rw [getProjectId_match_ok_iff]
    constructor
    · rintro ⟨e, hi⟩
      rcases first_match_or_none ToLower q projects with h | ⟨pre, p, post, e', hpre, hp⟩
      · rw [getProjectId_loop_none ToLower q projects h] at e
        omega
      · refine ⟨pre, p, post, e', hpre, hp, ?_, hi⟩
        rw [← e, e', getProjectId_loop_first ToLower q pre p post hpre hp]
    · rintro ⟨pre, p, post, e, hpre, hp, hid, hi⟩
      rw [e, getProjectId_loop_first ToLower q pre p post hpre hp]
      exact ⟨hid, hi⟩
  · exact getProjectId_match_err _ _ _
      (by rw [getProjectId_loop_none ToLower q projects h])
  · exact getProjectId_match_err _ _ _ (by simp [getProjectId_loop])
  · exact getProjectId_match_err _ _ _
      (by rw [e, getProjectId_loop_first ToLower q pre p post hpre hp]; exact hid)
  · rw [getProjectId_match_ok_iff]
    have h1 : strings.ToLowerASCII "Foo/Bar" = strings.ToLowerASCII s := by
      rw [hs]; decide
    exact ⟨by simp [getProjectId_loop, h1], by decide⟩

/-- C4, witness: the query `FOO/bar` on the two-record list matches the first
record, whose id is 1. -/
theorem getProjectId_match_spec_witness :
    getProjectId_match strings.ToLowerASCII
        [⟨1, "", "", "", "Foo/Bar"⟩, ⟨2, "", "", "", "baz/qux"⟩] "FOO/bar" = (1, none) :=
  ((getProjectId_match_spec strings.ToLowerASCII
      [⟨1, "", "", "", "Foo/Bar"⟩, ⟨2, "", "", "", "baz/qux"⟩] "FOO/bar").1 1).mpr
    ⟨[], ⟨1, "", "", "", "Foo/Bar"⟩, [⟨2, "", "", "", "baz/qux"⟩], rfl,
      fun _ h => absurd h (List.not_mem_nil _), by decide, rfl, by decide⟩

end bot

/-! ## Working branch name (C5, C6) -/

namespace bot

/-- C5: for every origin branch name `b`, revert flag and clock reading in
calendar range with a four-digit year, the working branch name of `Run` is
`b`, then `-dev-replacer-`, then the stamp of the reading, with `revert-` in
front exactly when the revert flag is set; the stamp is exactly fourteen
decimal digits, namely the year on four digits followed by month, day, hour,
minute and second on two digits each.  This name is the branch that `Run`
checks out. -/
theorem newBranch_form (b : String) (revert : Bool) (t : time.Time) (h : t.valid) :
    newBranch b t revert =
        (if revert then "revert-" ++ (b ++ "-dev-replacer-" ++ t.Format20060102150405)
         else b ++ "-dev-replacer-" ++ t.Format20060102150405) ∧
      t.Format20060102150405.data.length = 14 ∧
      (∀ c ∈ t.Format20060102150405.data, c.isDigit = true) ∧
      t.Format20060102150405.data =
        List.map Nat.digitChar
          [t.year.toNat / 1000, t.year.toNat / 100 % 10, t.year.toNat / 10 % 10,
            t.year.toNat % 10, t.month / 10, t.month % 10, t.day / 10, t.day % 10,
            t.hour / 10, t.hour % 10, t.minute / 10, t.minute % 10, t.second / 10,
            t.second % 10] ∧
      (∀ (w : World) (ToLower : String → String)
          (repoUrl username password tag savePath commitMessage replacerFile replacerUrl
            replacerConf replacerConfUrl : String)
          (gitlabGroupId : Int) (gitlabToken : String) (r : Result),
        w.Now = t →
        Run w ToLower repoUrl username password b tag savePath commitMessage replacerFile
          replacerUrl replacerConf replacerConfUrl gitlabGroupId gitlabToken revert = r →
        ∀ branch, Call.Checkout branch ∈ r.calls → branch = newBranch b t revert) := by
  have hf := time.Format_valid t h
  obtain ⟨hy0, hy1, _, hm, _, hd, hh, hmi, hs⟩ := h
  have hy : t.year.toNat < 10000 := by omega
  refine ⟨rfl, by rw [hf]; rfl, ?_, ?_, ?_⟩
  · rw [hf]
    intro c hc
    simp only [List.mem_cons, List.mem_singleton, List.not_mem_nil, or_false] at hc
    rcases hc with rfl | rfl | rfl | rfl | rfl | rfl | rfl | rfl | rfl | rfl | rfl | rfl | rfl | rfl
      <;> exact time.utod_isDigit _ (by omega)
  · rw [hf]
    simp only [List.map_cons, List.map_nil]
    rw [time.utod_eq_digitChar _ (show t.year.toNat / 1000 < 10 by omega),
      time.utod_eq_digitChar _ (show t.year.toNat / 100 % 10 < 10 by omega),
      time.utod_eq_digitChar _ (show t.year.toNat / 10 % 10 < 10 by omega),
      time.utod_eq_digitChar _ (show t.year.toNat % 10 < 10 by omega),
      time.utod_eq_digitChar _ (show t.month / 10 < 10 by omega),
      time.utod_eq_digitChar _ (show t.month % 10 < 10 by omega),
      time.utod_eq_digitChar _ (show t.day / 10 < 10 by omega),
      time.utod_eq_digitChar _ (show t.day % 10 < 10 by omega),
      time.utod_eq_digitChar _ (show t.hour / 10 < 10 by omega),
      time.utod_eq_digitChar _ (show t.hour % 10 < 10 by omega),
      time.utod_eq_digitChar _ (show t.minute / 10 < 10 by omega),
      time.utod_eq_digitChar _ (show t.minute % 10 < 10 by omega),
      time.utod_eq_digitChar _ (show t.second / 10 < 10 by omega),
      time.utod_eq_digitChar _ (show t.second % 10 < 10 by omega)]
  · intro w ToLower repoUrl username password tag savePath commitMessage replacerFile replacerUrl
      replacerConf replacerConfUrl gitlabGroupId gitlabToken r hnow hr branch hmem
    rw [← hnow]
    exact (Run_values w ToLower repoUrl username password b tag savePath commitMessage
      replacerFile replacerUrl replacerConf replacerConfUrl gitlabGroupId gitlabToken revert r
      hr).1 branch hmem

/-- C5, witness: origin branch `main` at 2024-01-02 03:04:05, without and
with the revert flag. -/
theorem newBranch_form_witness :
    newBranch "main" ⟨2024, 1, 2, 3, 4, 5⟩ false = "main-dev-replacer-20240102030405" ∧
      newBranch "main" ⟨2024, 1, 2, 3, 4, 5⟩ true = "revert-main-dev-replacer-20240102030405" :=
  ⟨((newBranch_form "main" false ⟨2024, 1, 2, 3, 4, 5⟩ (by decide)).1).trans (by decide),
    ((newBranch_form "main" true ⟨2024, 1, 2, 3, 4, 5⟩ (by decide)).1).trans (by decide)⟩

/-- Two clock readings in calendar range that differ give different working
branch names. -/
theorem newBranch_injective (b : String) (revert : Bool) (t1 t2 : time.Time)
    (h1 : t1.inCalendar) (h2 : t2.inCalendar) :
    (newBranch b t1 revert = newBranch b t2 revert → t1 = t2) ∧
      (t1 ≠ t2 → newBranch b t1 revert ≠ newBranch b t2 revert) := by
  have key : newBranch b t1 revert = newBranch b t2 revert → t1 = t2 := fun h =>
    time.Format_injective t1 t2 h1 h2 (newBranch_cancel b revert _ _ h)
  exact ⟨key, fun hne h => hne (key h)⟩

/-- C6, counterexample: two runs on `main` started 3600 seconds apart, at the
Unix seconds 1730611800 (01:30 at offset -4 h) and 1730615400 (01:30 at offset
-5 h, after the local clock was set back), derive the same working branch
name `main-dev-replacer-20241103013000`. -/
theorem newBranch_collision :
    (⟨1730611800, -14400⟩ : time.Instant).unix ≠ (⟨1730615400, -18000⟩ : time.Instant).unix ∧
      newBranch "main" (time.Instant.wall ⟨1730611800, -14400⟩) false =
        "main-dev-replacer-20241103013000" ∧
      newBranch "main" (time.Instant.wall ⟨1730615400, -18000⟩) false =
        "main-dev-replacer-20241103013000" := by
  decide

/-- C6, amended: for every origin branch name and revert flag, two runs derive
the same working branch name exactly when their local wall-clock seconds
(Unix second of the start plus the zone offset then in effect) are equal: the
map from the local wall-clock second to the working branch name is injective.
So two runs started in different seconds under the same zone offset derive
different names, and so do two runs whose clock readings differ. -/
theorem newBranch_injective_wall (b : String) (revert : Bool) (i1 i2 : time.Instant) :
    (newBranch b i1.wall revert = newBranch b i2.wall revert ↔
      i1.unix + i1.offset = i2.unix + i2.offset) ∧
    (i1.offset = i2.offset → i1.unix ≠ i2.unix →
      newBranch b i1.wall revert ≠ newBranch b i2.wall revert) ∧
    (i1.wall ≠ i2.wall → newBranch b i1.wall revert ≠ newBranch b i2.wall revert) := by
  have key : newBranch b i1.wall revert = newBranch b i2.wall revert → i1.wall = i2.wall :=
    fun h => time.Format_injective _ _ (time.civil_inCalendar _) (time.civil_inCalendar _)
      (newBranch_cancel b revert _ _ h)
  have iff : newBranch b i1.wall revert = newBranch b i2.wall revert ↔
      i1.unix + i1.offset = i2.unix + i2.offset := by
    constructor
    · intro h
      exact time.civil_injective _ _ (key h)
    · intro h
      show newBranch b (time.civil (i1.unix + i1.offset)) revert =
        newBranch b (time.civil (i2.unix + i2.offset)) revert
      rw [h]
  refine ⟨iff, fun ho hu h => ?_, fun hne h => hne (key h)⟩
  have := iff.mp h
  omega

/-- C6, witness: two runs on `main` one second apart under the same offset. -/
theorem newBranch_injective_wall_witness :
    newBranch "main" (time.Instant.wall ⟨1730611800, -14400⟩) false ≠
      newBranch "main" (time.Instant.wall ⟨1730611801, -14400⟩) false :=
  (newBranch_injective_wall "main" false ⟨1730611800, -14400⟩ ⟨1730611801, -14400⟩).2.1
    (by decide) (by decide)

end bot

/-! ## Commit message (C7) -/

namespace bot

/-- C7: the commit message of `Run` is exactly
`chore(revert replace <tag>): <message>` when revert is set and exactly
`chore(replace <tag>): <message>` otherwise, with tag and message inserted as
they are; the message is an instance of the template of its flag and not of
the other one.  For tag `v2` the two messages are `chore(replace v2): <msg>`
and `chore(revert replace v2): <msg>`.  This message is the one `Run` passes
to commit. -/
theorem commitMessage_spec (tag message : String) :
    commitMessage tag message true = "chore(revert replace " ++ tag ++ "): " ++ message ∧
      commitMessage tag message false = "chore(replace " ++ tag ++ "): " ++ message ∧
      (isRevertMessage (commitMessage tag message true) ∧
        ¬ isReplaceMessage (commitMessage tag message true)) ∧
      (isReplaceMessage (commitMessage tag message false) ∧
        ¬ isRevertMessage (commitMessage tag message false)) ∧
      commitMessage "v2" message false = "chore(replace v2): " ++ message ∧
      commitMessage "v2" message true = "chore(revert replace v2): " ++ message ∧
      (∀ (w : World) (ToLower : String → String)
          (repoUrl username password originBranch savePath replacerFile replacerUrl
            replacerConf replacerConfUrl : String)
          (gitlabGroupId : Int) (gitlabToken : String) (revert : Bool) (r : Result),
        Run w ToLower repoUrl username password originBranch tag savePath message replacerFile
          replacerUrl replacerConf replacerConfUrl gitlabGroupId gitlabToken revert = r →
        ∀ m a em, Call.Commit m a em ∈ r.calls → m = commitMessage tag message revert) := by
  refine ⟨commitMessage_revert tag message, commitMessage_replace tag message, ⟨?_, ?_⟩,
    ⟨?_, ?_⟩, ?_, ?_, ?_⟩
  · exact ⟨tag, message, commitMessage_revert tag message⟩
  · rintro ⟨tag', message', e⟩
    rw [commitMessage_revert] at e
    exact templates_disjoint _ _ _ _ e
  · exact ⟨tag, message, commitMessage_replace tag message⟩
  · rintro ⟨tag', message', e⟩
    rw [commitMessage_replace] at e
    exact templates_disjoint _ _ _ _ e.symm
  · have e : commitMessage "v2" message false = "chore(replace v2): " ++ (message ++ "") := rfl
    rw [e, String.append_empty]
  · have e : commitMessage "v2" message true =
        "chore(revert replace v2): " ++ (message ++ "") := rfl
    rw [e, String.append_empty]
  · intro w ToLower repoUrl username password originBranch savePath replacerFile replacerUrl
      replacerConf replacerConfUrl gitlabGroupId gitlabToken revert r hr m a em hmem
    exact ((Run_values w ToLower repoUrl username password originBranch tag savePath message
      replacerFile replacerUrl replacerConf replacerConfUrl gitlabGroupId gitlabToken revert r
      hr).2.2.1 m a em hmem).1

/-- C7, witness: in the sample world with a successful tool, tag `v2` and
message `update`, the message passed to commit is `chore(replace v2): update`. -/
theorem commitMessage_spec_witness :
    "chore(replace v2): update" = commitMessage "v2" "update" false :=
  (commitMessage_spec "v2" "update").2.2.2.2.2.2 (sampleWorld (exec.Outcome.exited "done" 0))
    strings.ToLowerASCII "https://gitlab.example.com/group/app.git" "bot" "secret" "main" "repo"
    "./replacer" "" "replacer.yaml" "" 3 "token" false _ rfl
    "chore(replace v2): update" "replacerbot" "bot" (by decide)

end bot

/-! ## Invocation of the transform tool (C8) -/

namespace starter

/-- C8: whenever `starter.Run` starts the transform tool, the program is
`replacerFile` and the argument list is `-root=<root>`, `-tag=<tag>`,
`-conf=<replacerConf>`, `-conf_url=<replacerConfUrl>` in that order, followed
by the single element `-revert` if and only if revert is true (five elements
with revert, four without); the tool is started, as the last call, unless
fetching it from a non-empty `replacerUrl` failed. -/
theorem Run_args (w : World)
    (root tag replacerConf replacerConfUrl replacerFile replacerUrl : String) (revert : Bool) :
    (∀ name args, Call.CombinedOutput name args ∈
        (Run w root tag replacerConf replacerConfUrl replacerFile replacerUrl revert).calls →
      name = replacerFile ∧
      args = ["-root=" ++ root, "-tag=" ++ tag, "-conf=" ++ replacerConf,
          "-conf_url=" ++ replacerConfUrl] ++ (if revert then ["-revert"] else []) ∧
      args.length = (if revert then 5 else 4) ∧
      ("-revert" ∈ args.drop 4 ↔ revert = true)) ∧
    ((replacerUrl.length = 0 ∨ (w.NewHttpClient = none ∧
        w.Download replacerFile replacerUrl = none)) →
      (Run w root tag replacerConf replacerConfUrl replacerFile replacerUrl revert).calls.getLast? =
        some (Call.CombinedOutput replacerFile
          (["-root=" ++ root, "-tag=" ++ tag, "-conf=" ++ replacerConf,
            "-conf_url=" ++ replacerConfUrl] ++ (if revert then ["-revert"] else [])))) := by
  constructor
  · intro name args hmem
    have hargs : name = replacerFile ∧
        args = ["-root=" ++ root, "-tag=" ++ tag, "-conf=" ++ replacerConf,
          "-conf_url=" ++ replacerConfUrl] ++ (if revert then ["-revert"] else []) := by
      unfold Run at hmem
      simp only [] at hmem
      cases revert <;> split at hmem <;> (try split at hmem) <;> (try split at hmem) <;>
        (try split at hmem) <;> simp_all
    obtain ⟨hn, ha⟩ := hargs
    refine ⟨hn, ha, ?_, ?_⟩
    · rw [ha]; cases revert <;> rfl
    · rw [ha]; cases revert <;> simp
  · intro h
    unfold Run
    simp only []
    rcases h with h | ⟨h1, h2⟩
    · have h0 : ¬ replacerUrl.length > 0 := by omega
      rw [if_neg h0]
      cases revert <;> split <;> simp
    · cases revert <;> split <;> (try rw [h1]) <;> (try simp only [h2]) <;> (try split) <;> simp

/-- C8, witness: a run with the revert flag and no download; the tool is
started with five arguments. -/
theorem Run_args_witness :
    (Run ⟨none, fun _ _ => none, fun _ _ => exec.Outcome.exited "" 0⟩ "/work/app" "v2"
        "replacer.yaml" "" "./replacer" "" true).calls.getLast? =
      some (Call.CombinedOutput "./replacer"
        ["-root=/work/app", "-tag=v2", "-conf=replacer.yaml", "-conf_url=", "-revert"]) :=
  ((Run_args ⟨none, fun _ _ => none, fun _ _ => exec.Outcome.exited "" 0⟩ "/work/app" "v2"
    "replacer.yaml" "" "./replacer" "" true).2 (Or.inl (by decide))).trans (by decide)

end starter

/-! ## Order of the pipeline (C9) -/

namespace bot

/-- C9: in every run of `bot.Run`, seen as the sequence of its calls
(parse, workspace calls, clone, worktree, checkout of the new branch,
transform, commit, push, project resolution, link): the transform is called
only after a successful checkout, commit only after a successful transform,
push only after a successful commit, project resolution only after a
successful push, and the link is built only after a successful project
resolution; a call that fails is the last call of the run, no call of a
later stage is made and `Run` returns the error of that call; the calls
follow the order of the pipeline, and an error returned by `Run` is the
error of its last call. -/
theorem Run_pipeline (w : World) (ToLower : String → String)
    (repoUrl username password originBranch tag savePath commitMessage replacerFile replacerUrl
      replacerConf replacerConfUrl : String)
    (gitlabGroupId : Int) (gitlabToken : String) (revert : Bool) (r : Result)
    (hr : Run w ToLower repoUrl username password originBranch tag savePath commitMessage
        replacerFile replacerUrl replacerConf replacerConfUrl gitlabGroupId gitlabToken
        revert = r) :
    (∀ root tg rc rcu rf ru rv, Call.starterRun root tg rc rcu rf ru rv ∈ r.calls →
      ∃ branch, Call.Checkout branch ∈ r.calls ∧ w.Checkout branch = none) ∧
    (∀ m a em, Call.Commit m a em ∈ r.calls →
      ∃ root tg rc rcu rf ru rv, Call.starterRun root tg rc rcu rf ru rv ∈ r.calls ∧
        (starter.Run w.starter root tg rc rcu rf ru rv).err = none) ∧
    (∀ u p, Call.Push u p ∈ r.calls →
      ∃ m a em, Call.Commit m a em ∈ r.calls ∧ ∃ hash, w.Commit m = Except.ok hash) ∧
    (∀ sc h g n t, Call.getProjectId sc h g n t ∈ r.calls →
      ∃ u p, Call.Push u p ∈ r.calls ∧ w.Push = none) ∧
    (∀ sc h f sb tb i, Call.openCreateMR sc h f sb tb i ∈ r.calls →
      ∃ sc' h' g n t, Call.getProjectId sc' h' g n t ∈ r.calls ∧
        (getProjectId w ToLower sc' h' g n t).2 = none) ∧
    (∀ c ∈ r.calls, ∀ e, w.outcome ToLower c = some e →
      r.err = some e ∧ r.calls.getLast? = some c ∧ ∀ d ∈ r.calls, d.stage ≤ c.stage) ∧
    (r.calls.map Call.stage).Pairwise (fun a b => a < b) ∧
    (∀ e, r.err = some e → ∃ c, r.calls.getLast? = some c ∧ w.outcome ToLower c = some e) := by
  have hchain := (Run_chain w ToLower repoUrl username password originBranch tag savePath
    commitMessage replacerFile replacerUrl replacerConf replacerConfUrl gitlabGroupId gitlabToken
    revert r hr).1
  have hpred := Run_pred w ToLower repoUrl username password originBranch tag savePath
    commitMessage replacerFile replacerUrl replacerConf replacerConfUrl gitlabGroupId gitlabToken
    revert r hr
  refine ⟨?_, ?_, ?_, ?_, ?_, chain_fail _ _ _ hchain, chain_order _ _ _ hchain, ?_⟩
  · intro root tg rc rcu rf ru rv hmem
    obtain ⟨d, hd, hst, hout⟩ := hpred _ hmem (by simp [Call.stage])
    cases d <;> simp [Call.stage] at hst
    exact ⟨_, hd, hout⟩
  · intro m a em hmem
    obtain ⟨d, hd, hst, hout⟩ := hpred _ hmem (by simp [Call.stage])
    cases d <;> simp [Call.stage] at hst
    exact ⟨_, _, _, _, _, _, _, hd, hout⟩
  · intro u p hmem
    obtain ⟨d, hd, hst, hout⟩ := hpred _ hmem (by simp [Call.stage])
    cases d <;> simp [Call.stage] at hst
    rename_i m a em
    refine ⟨m, a, em, hd, ?_⟩
    cases hc : w.Commit m with
    | error err => simp [World.outcome, hc] at hout
    | ok hash => exact ⟨hash, rfl⟩
  · intro sc h g n t hmem
    obtain ⟨d, hd, hst, hout⟩ := hpred _ hmem (by simp [Call.stage])
    cases d <;> simp [Call.stage] at hst
    exact ⟨_, _, hd, hout⟩
  · intro sc h f sb tb i hmem
    obtain ⟨d, hd, hst, hout⟩ := hpred _ hmem (by simp [Call.stage])
    cases d <;> simp [Call.stage] at hst
    exact ⟨_, _, _, _, _, hd, hout⟩
  · intro e he
    obtain ⟨c, h1, h2⟩ := chain_last _ _ _ hchain
    exact ⟨c, h1, by rw [h2, he]⟩

/-- C9, witness: in the sample world with a transform tool that exits with
status 1, the run returns the exit error, its last call is the transform, and
neither commit nor push is called. -/
theorem Run_pipeline_witness :
    (Run (sampleWorld (exec.Outcome.exited "parse error" 1)) strings.ToLowerASCII
        "https://gitlab.example.com/group/app.git" "bot" "secret" "main" "v2" "repo" "update"
        "./replacer" "" "replacer.yaml" "" 3 "token" false).err = some ⟨"exit status 1", ""⟩ ∧
      (Run (sampleWorld (exec.Outcome.exited "parse error" 1)) strings.ToLowerASCII
        "https://gitlab.example.com/group/app.git" "bot" "secret" "main" "v2" "repo" "update"
        "./replacer" "" "replacer.yaml" "" 3 "token" false).calls.getLast? =
        some (Call.starterRun "/work/repo/group-app-1" "v2" "replacer.yaml" "" "./replacer" ""
          false) ∧
      ∀ d ∈ (Run (sampleWorld (exec.Outcome.exited "parse error" 1)) strings.ToLowerASCII
        "https://gitlab.example.com/group/app.git" "bot" "secret" "main" "v2" "repo" "update"
        "./replacer" "" "replacer.yaml" "" 3 "token" false).calls, d.stage ≤ 8 :=
  (Run_pipeline (sampleWorld (exec.Outcome.exited "parse error" 1)) strings.ToLowerASCII
    "https://gitlab.example.com/group/app.git" "bot" "secret" "main" "v2" "repo" "update"
    "./replacer" "" "replacer.yaml" "" 3 "token" false _ rfl).2.2.2.2.2.1
    (Call.starterRun "/work/repo/group-app-1" "v2" "replacer.yaml" "" "./replacer" "" false)
    (by decide) ⟨"exit status 1", ""⟩ (by decide)

end bot

/-! ## A failing transform (C10) -/

namespace bot

/-- C10, counterexample: the tool exits with status 1 after writing
`parse error`; the error returned by `starter.Run` is `exit status 1` with an
empty `Stderr`: neither its text nor its `Stderr` field contains
`parse error`. -/
theorem starterRun_error_lacks_output :
    ¬ ∃ e : GoError,
      (starter.Run ⟨none, fun _ _ => none, fun _ _ => exec.Outcome.exited "parse error" 1⟩
        "/work/app" "v2" "replacer.yaml" "" "./replacer" "" false).err = some e ∧
      ("parse error".data <:+: e.msg.data ∨ "parse error".data <:+: e.stderr.data) := by
  rintro ⟨e, he, hc⟩
  have h1 : (starter.Run ⟨none, fun _ _ => none, fun _ _ => exec.Outcome.exited "parse error" 1⟩
      "/work/app" "v2" "replacer.yaml" "" "./replacer" "" false).err =
      some ⟨"exit status 1", ""⟩ := by decide
  rw [h1] at he
  cases he
  revert hc
  decide

/-- C10, amended: when the transform subprocess is started and ends with a
non-zero exit status and combined output `o`, the error returned by
`starter.Run` is the exit error of the subprocess, with text
`exit status <status>`; the output `o` is not part of the error, it is written
to the log by `log.Info`.  `bot.Run` returns the error of its `starter.Run`
call unchanged and then calls neither commit nor push. -/
theorem starterRun_exit_error (w : starter.World)
    (root tag replacerConf replacerConfUrl replacerFile replacerUrl : String) (revert : Bool)
    (o : String) (status : Nat) (hstatus : status ≠ 0)
    (hfetch : replacerUrl.length = 0 ∨
      (w.NewHttpClient = none ∧ w.Download replacerFile replacerUrl = none))
    (hcmd : w.Command replacerFile
        (["-root=" ++ root, "-tag=" ++ tag, "-conf=" ++ replacerConf,
          "-conf_url=" ++ replacerConfUrl] ++ (if revert then ["-revert"] else [])) =
      exec.Outcome.exited o status) :
    (starter.Run w root tag replacerConf replacerConfUrl replacerFile replacerUrl revert).err =
        some (exec.ExitError status) ∧
      (exec.ExitError status).msg = "exit status " ++ toString status ∧
      (exec.ExitError status).stderr = "" ∧
      (⟨LogLevel.info, none, o, []⟩ : LogLine) ∈
        (starter.Run w root tag replacerConf replacerConfUrl replacerFile replacerUrl
          revert).logs ∧
      (∀ (bw : World) (ToLower : String → String)
          (repoUrl username password originBranch savePath commitMessage : String)
          (gitlabGroupId : Int) (gitlabToken : String) (r : Result),
        bw.starter = w →
        Run bw ToLower repoUrl username password originBranch tag savePath commitMessage
          replacerFile replacerUrl replacerConf replacerConfUrl gitlabGroupId gitlabToken
          revert = r →
        Call.starterRun root tag replacerConf replacerConfUrl replacerFile replacerUrl revert ∈
          r.calls →
        r.err = some (exec.ExitError status) ∧
          (∀ m a em, Call.Commit m a em ∉ r.calls) ∧ (∀ u p, Call.Push u p ∉ r.calls)) := by
  obtain ⟨k, rfl⟩ : ∃ k, status = k + 1 := ⟨status - 1, by omega⟩
  have hrun : (starter.Run w root tag replacerConf replacerConfUrl replacerFile replacerUrl
        revert).err = some (exec.ExitError (k + 1)) ∧
      (⟨LogLevel.info, none, o, []⟩ : LogLine) ∈
        (starter.Run w root tag replacerConf replacerConfUrl replacerFile replacerUrl
          revert).logs := by
    unfold starter.Run
    simp only []
    rcases hfetch with h | ⟨h1, h2⟩
    · have h0 : ¬ replacerUrl.length > 0 := by omega
      rw [if_neg h0]
      cases revert <;> simp_all [exec.CombinedOutput]
    · cases revert <;> split <;> simp_all [exec.CombinedOutput]
  refine ⟨hrun.1, rfl, rfl, hrun.2, ?_⟩
  intro bw ToLower repoUrl username password originBranch savePath commitMessage gitlabGroupId
    gitlabToken r hw hr hmem
  have hchain := (Run_chain bw ToLower repoUrl username password originBranch tag savePath
    commitMessage replacerFile replacerUrl replacerConf replacerConfUrl gitlabGroupId gitlabToken
    revert r hr).1
  have hout : bw.outcome ToLower
      (Call.starterRun root tag replacerConf replacerConfUrl replacerFile replacerUrl revert) =
      some (exec.ExitError (k + 1)) := by
    show (starter.Run bw.starter root tag replacerConf replacerConfUrl replacerFile replacerUrl
      revert).err = _
    rw [hw]; exact hrun.1
  obtain ⟨h1, _, h3⟩ := chain_fail _ _ _ hchain _ hmem _ hout
  refine ⟨h1, fun m a em hm => ?_, fun u p hp => ?_⟩
  · have := h3 _ hm
    simp [Call.stage] at this
  · have := h3 _ hp
    simp [Call.stage] at this

/-- C10, witness: exit status 1 with output `parse error` yields the error
`exit status 1`. -/
theorem starterRun_exit_error_witness :
    (starter.Run ⟨none, fun _ _ => none, fun _ _ => exec.Outcome.exited "parse error" 1⟩
      "/work/app" "v2" "replacer.yaml" "" "./replacer" "" false).err =
      some ⟨"exit status 1", ""⟩ :=
  ((starterRun_exit_error ⟨none, fun _ _ => none, fun _ _ => exec.Outcome.exited "parse error" 1⟩
    "/work/app" "v2" "replacer.yaml" "" "./replacer" "" false "parse error" 1 (by decide)
    (Or.inl (by decide)) rfl).1).trans (by decide)

end bot
